import Mathlib

/-!
Verification of the text re-anchoring engine (PositionService /
TextMatchingAlgorithm / StructuralAnalyzer / ContextAnalyzer / HashUtil)
of the legal-codex repository.

Modelling conventions (shallow embedding of the TypeScript source):

* Strings are `List Char`.  JavaScript strings are UTF-16 code-unit
  sequences; for characters of the Basic Multilingual Plane (all inputs of
  interest here, in particular CJK ideographs) one code unit is one code
  point, so `List Char` with `Char.toNat` as `charCodeAt` is faithful.
* JavaScript numbers are modelled by `Rat` (offsets and lengths stay small
  integers, and the confidence arithmetic uses only decimal literals, so
  exact rational arithmetic mirrors the intent of the code; `Int` is used
  for offsets).  `x / 0 = 0` in `Rat` where JS would give `Infinity`/`NaN`;
  each place where this could matter is noted and yields the same branch
  outcome as the JS code.
* `Date.now()` / `new Date()` (wall clock) are outside the model:
  `processingTime` is dropped from result metadata and `createdAt` is
  modelled as the constant 0 (no algorithm reads either).
* The two regular expressions built at runtime are embedded directly:
  the context pattern `before.{0,200}after` (both parts are passed through
  escapeRegex, hence literal) and the fuzzy pattern `w1\s*w2\s*...`, whose
  chunks are split words of the stored text and are treated as literals;
  this matches the JS semantics whenever the stored text contains no regex
  metacharacters.  Case-insensitive matching (`i` flag) is modelled by
  ASCII lowercasing on both sides (identity on CJK).
* The strategy functions never throw, so the try/catch in the cascade
  collects no diagnostics: the `errors` list of a result is always empty
  in the embedding.
* One code path of the source does not terminate: the `while(exec)` loop
  of `findMatches` never advances `lastIndex` past an empty match, which
  arises exactly when both stored context strings are empty
  (`findMatchesDiverges_iff`).  The loop is embedded with fuel
  (`findMatchesGo`, fuel-insensitive on terminating runs,
  `findMatchesGo_fuel_stable`), the divergent runs are detected by
  `findMatchesDiverges`, and `findAnnotationPositionJS` exposes the
  divergence of the whole cascade as `none`: the total
  `findAnnotationPosition` describes only the terminating runs.
-/

/-! ## Basic string machinery (JS semantics) -/

abbrev Str := List Char

/-- JS whitespace class `\s` (space, tab, LF, VT, FF, CR, NBSP, Ogham
space, the U+2000 block, LS, PS, NNBSP, MMSP, ideographic space, BOM),
by code point. -/
def jsIsWs (c : Char) : Bool :=
  c.toNat = 32 || c.toNat = 9 || c.toNat = 10 || c.toNat = 13 || c.toNat = 11 ||
  c.toNat = 12 || c.toNat = 0xa0 || c.toNat = 0x1680 ||
  (0x2000 ≤ c.toNat && c.toNat ≤ 0x200a) ||
  c.toNat = 0x2028 || c.toNat = 0x2029 || c.toNat = 0x202f || c.toNat = 0x205f ||
  c.toNat = 0x3000 || c.toNat = 0xfeff

/-- JS regex line terminators LF, CR, LS, PS (which `.` does not match). -/
def isLineTerm (c : Char) : Bool :=
  c.toNat = 10 || c.toNat = 13 || c.toNat = 0x2028 || c.toNat = 0x2029

/-- Word character class `\w` = `[A-Za-z0-9_]`, by code point. -/
def isWordChar (c : Char) : Bool :=
  (97 ≤ c.toNat && c.toNat ≤ 122) || (65 ≤ c.toNat && c.toNat ≤ 90) ||
  (48 ≤ c.toNat && c.toNat ≤ 57) || c.toNat = 95

/-- CJK ideograph range `一-鿿`. -/
def isCJKChar (c : Char) : Bool :=
  0x4e00 ≤ c.toNat && c.toNat ≤ 0x9fff

/-- ASCII lowercasing, modelling `toLowerCase` / the `i` regex flag
(identity on CJK ideographs). -/
def lowerStr (s : Str) : Str := s.map Char.toLower

/-- Slice with natural-number bounds: `s.slice(a, b)` for `0 ≤ a, b`. -/
def sliceN (s : Str) (a b : Nat) : Str := (s.drop a).take (b - a)

/-- Full JS `String.prototype.slice(a, b)` semantics (negative indices count
from the end, everything clamped). -/
def jsSlice (s : Str) (a b : Int) : Str :=
  let n : Int := s.length
  let lo : Nat := (if a < 0 then max 0 (n + a) else min a n).toNat
  let hi : Nat := (if b < 0 then max 0 (n + b) else min b n).toNat
  sliceN s lo hi

/-- One-argument `s.slice(a)`. -/
def jsSliceFrom (s : Str) (a : Int) : Str := jsSlice s a s.length

/-- `s.indexOf(t)`, as `none` instead of `-1`. -/
def strIndexOf? (s t : Str) : Option Nat :=
  (List.range (s.length + 1)).find? (fun i => t.isPrefixOf (s.drop i))

/-- `String.prototype.split(/\s+/)` worker; `cur` holds the current token
reversed, `lastWs` records whether the previous character was whitespace. -/
def splitWsGo : Str → Str → Bool → List Str
  | [], cur, _ => [cur.reverse]
  | c :: rest, cur, lastWs =>
    if jsIsWs c then
      if lastWs then splitWsGo rest [] true
      else cur.reverse :: splitWsGo rest [] true
    else splitWsGo rest (c :: cur) false

/-- JS `s.split(/\s+/)` (a leading separator run yields a leading empty
token, a trailing run a trailing empty token, and `"".split` is `[""]`). -/
def jsSplitWs (s : Str) : List Str := splitWsGo s [] false

/-- `replace(/\s+/g, ' ')`: collapse every whitespace run to one space. -/
def collapseWsGo : Str → Bool → Str
  | [], _ => []
  | c :: rest, lastWs =>
    if jsIsWs c then
      if lastWs then collapseWsGo rest true
      else ' ' :: collapseWsGo rest true
    else c :: collapseWsGo rest false

def collapseWs (s : Str) : Str := collapseWsGo s false

/-- JS `trim()`. -/
def jsTrim (s : Str) : Str :=
  ((s.dropWhile jsIsWs).reverse.dropWhile jsIsWs).reverse

/-- Insertion-order deduplication, modelling `new Set(list)`. -/
def tokenSet (l : List Str) : List Str :=
  l.foldl (fun acc x => if acc.contains x then acc else acc ++ [x]) []

/-! ## HashUtil (part_013): the polynomial 32-bit hash behind `sha256` -/

/-- JS `ToInt32` (the effect of `x & x` and of `<<` on a number). -/
def toInt32 (n : Int) : Int := (n + 2 ^ 31) % 2 ^ 32 - 2 ^ 31

/-- One step of `hash = ((hash << 5) - hash) + charCode; hash = hash & hash`. -/
def hashStep (h : Int) (c : Char) : Int :=
  toInt32 (toInt32 (h * 32) - h + c.toNat)

/-- `HashUtil.sha256` (despite the name, the simple polynomial hash of the
source): fold the step over the code units, then `Math.abs(h).toString(16)`. -/
def hashUtilSha256 (s : Str) : Str :=
  Nat.toDigits 16 (s.foldl hashStep 0).natAbs

/-! ## Text normalisation and similarity

Two distinct `normalizeText` functions exist in the source: the
PositionService one strips every character outside `[\w一-鿿]`
(including whitespace), the TextMatchingAlgorithm one keeps whitespace
(`[^\w一-鿿\s]`). -/

/-- `PositionService.normalizeText`. -/
def normalizeTextPS (s : Str) : Str :=
  jsTrim (lowerStr ((collapseWs s).filter (fun c => isWordChar c || isCJKChar c)))

/-- `TextMatchingAlgorithm.normalizeText`. -/
def normalizeTextTMA (s : Str) : Str :=
  jsTrim (lowerStr ((collapseWs s).filter
    (fun c => isWordChar c || isCJKChar c || jsIsWs c)))

/-- Size of the intersection of two deduplicated token lists. -/
def interCount (s1 s2 : List Str) : Nat :=
  (s1.filter (fun x => s2.contains x)).length

/-- Size of the union of two deduplicated token lists. -/
def unionCount (s1 s2 : List Str) : Nat :=
  (tokenSet (s1 ++ s2)).length

/-- `PositionService.calculateTextSimilarity`: 1 on equality, 0.95 after
normalisation, else Jaccard similarity of whitespace-token sets of the
normalised strings (whose union is never empty, since `split` returns at
least one token). -/
def calculateTextSimilarityPS (t1 t2 : Str) : Rat :=
  if t1 = t2 then 1
  else
    let n1 := normalizeTextPS t1
    let n2 := normalizeTextPS t2
    if n1 = n2 then 19 / 20
    else
      let w1 := tokenSet (jsSplitWs n1)
      let w2 := tokenSet (jsSplitWs n2)
      (interCount w1 w2 : Rat) / (unionCount w1 w2 : Rat)

/-- `TextMatchingAlgorithm.calculateTextSimilarity` (union size guarded by
`|| 1`). -/
def calculateTextSimilarityTMA (t1 t2 : Str) : Rat :=
  if t1 = t2 then 1
  else
    let n1 := normalizeTextTMA t1
    let n2 := normalizeTextTMA t2
    if n1 = n2 then 19 / 20
    else
      let w1 := tokenSet (jsSplitWs n1)
      let w2 := tokenSet (jsSplitWs n2)
      let u := unionCount w1 w2
      (interCount w1 w2 : Rat) / ((if u = 0 then 1 else u : Nat) : Rat)

/-! ## Data model (shared/types/annotation.types) -/

inductive PositioningMethod where
  | primary_position
  | context_match
  | text_fingerprint
  | structural_path
  | fuzzy_match
deriving DecidableEq, Repr

structure PrimaryPos where
  startOffset : Int
  endOffset : Int
  selectedText : Str
deriving DecidableEq, Repr

structure ContextInfo where
  before : Str
  after : Str
  hash : Str
deriving DecidableEq, Repr

structure StructuralPath where
  chapterId : Option Str
  articleId : Option Str
  sectionId : Option Str
  paragraphIndex : Option Int
  elementPath : Option Str
deriving DecidableEq, Repr

structure PosMetadata where
  createdAt : Nat
  textLength : Nat
  confidence : Rat
deriving DecidableEq, Repr

structure AnnotationPosition where
  primary : PrimaryPos
  context : ContextInfo
  structural : StructuralPath
  fingerprint : Str
  metadata : PosMetadata
deriving DecidableEq, Repr

structure SelectionData where
  selectedText : Str
  startOffset : Int
  endOffset : Int
  contextBefore : Str
  contextAfter : Str
  elementPath : Option Str
deriving DecidableEq, Repr

structure TextRange where
  startOffset : Int
  endOffset : Int
  text : Str
  confidence : Option Rat
deriving DecidableEq, Repr

structure TextMatch where
  startOffset : Nat
  endOffset : Nat
  text : Str
deriving DecidableEq, Repr

structure AnnotationMatch where
  range : TextRange
  confidence : Rat
  method : PositioningMethod
deriving DecidableEq, Repr

/-- Result metadata; `processingTime` (wall clock) is not modelled. -/
structure ResultMetadata where
  totalAttempts : Nat
  strategiesUsed : List PositioningMethod
  confidence : Rat
deriving DecidableEq, Repr

/-- The source field `matches` is a reserved word in Lean and is renamed
`matchList` here. -/
structure PositioningResult where
  success : Bool
  position : Option AnnotationPosition
  matchList : List AnnotationMatch
  errors : List Str
  metadata : ResultMetadata
deriving DecidableEq, Repr

/-! ## PositionService.findByPrimaryPosition -/

def findByPrimaryPosition (textContent : Str) (position : AnnotationPosition) :
    Option TextRange :=
  let s := position.primary.startOffset
  let e := position.primary.endOffset
  let t := position.primary.selectedText
  if s < 0 || (textContent.length : Int) < e || e ≤ s then none
  else
    let extractedText := jsSlice textContent s e
    if extractedText = t then
      some ⟨s, e, extractedText, some 1⟩
    else if normalizeTextPS extractedText = normalizeTextPS t then
      some ⟨s, e, extractedText, some (9 / 10)⟩
    else none

/-! ## TextMatchingAlgorithm: context match

`buildContextPattern` produces `new RegExp(escape(before) + ".{0,200}" +
escape(after), "gi")`: both context parts are escaped, hence literal, so the
pattern is embedded as the pair of literal strings with a greedy gap of at
most 200 non-line-terminator characters. -/

/-- Case-insensitive literal prefix test (the `i` flag, ASCII folding). -/
def ciPrefix : Str → Str → Bool
  | [], _ => true
  | _ :: _, [] => false
  | a :: as, b :: bs => (a.toLower == b.toLower) && ciPrefix as bs

/-- Greedy search for the gap length: try `g, g-1, ..., 0` and return the
first (largest) gap after which `after` matches, like the backtracking of
the greedy `.{0,200}`. -/
def gapSearch (doc after : Str) (q : Nat) : Nat → Option Nat
  | 0 => if ciPrefix after (doc.drop q) then some 0 else none
  | g + 1 =>
    if ciPrefix after (doc.drop (q + (g + 1))) then some (g + 1)
    else gapSearch doc after q g

/-- Match the context pattern at position `p`; returns the end position of
the (greedy) match. -/
def matchAt (doc before after : Str) (p : Nat) : Option Nat :=
  if ciPrefix before (doc.drop p) then
    let q := p + before.length
    let maxGap := min 200 ((doc.drop q).takeWhile (fun c => ! isLineTerm c)).length
    (gapSearch doc after q maxGap).map (fun g => q + g + after.length)
  else none

/-- `pattern.exec` from `lastIndex = l`: the leftmost match at a position
`≥ l`, with its end. -/
def execFrom (doc before after : Str) (l : Nat) : Option (Nat × Nat) :=
  (List.range' l (doc.length + 1 - l)).findSome?
    (fun p => (matchAt doc before after p).map (fun e => (p, e)))

/-- The `while ((match = pattern.exec(text)) !== null)` loop of
`findMatches`.  Fuel bounds the iteration count; any terminating JS run
makes fewer than `doc.length + 2` iterations, because every non-empty
match advances `lastIndex` (`findMatchesGo_fuel_stable`).  A run that
reaches an empty match never terminates in JS (`exec` leaves `lastIndex`
unchanged and finds the same empty match again); such runs are detected
by `findMatchesDiverges` below and surfaced by `findAnnotationPositionJS`,
so the value of `findMatchesGo` is only ever used for terminating runs. -/
def findMatchesGo (doc before after : Str) : Nat → Nat → List TextMatch
  | 0, _ => []
  | fuel + 1, l =>
    match execFrom doc before after l with
    | none => []
    | some (p, e) => ⟨p, e, sliceN doc p e⟩ :: findMatchesGo doc before after fuel e

def findMatches (doc before after : Str) : List TextMatch :=
  findMatchesGo doc before after (doc.length + 2) 0

/-- Detector for the non-terminating runs of the `findMatches` loop: `true`
iff the loop reaches a zero-length match (`e = p`), after which JS never
advances `lastIndex` and loops forever.  The fuel-exhausted value `false`
is unreachable: `lastIndex` strictly increases until the first empty match,
so the loop makes at most `doc.length + 2` iterations before either ending
or hitting one (see `findMatchesDiverges_iff`, which pins the detector to
the exact semantic condition). -/
def findMatchesDivergesGo (doc before after : Str) : Nat → Nat → Bool
  | 0, _ => false
  | fuel + 1, l =>
    match execFrom doc before after l with
    | none => false
    | some (p, e) =>
      if e = p then true else findMatchesDivergesGo doc before after fuel e

/-- Whether the JS `findMatches` loop on this document and context pair
never terminates. -/
def findMatchesDiverges (doc before after : Str) : Bool :=
  findMatchesDivergesGo doc before after (doc.length + 2) 0

/-- `TextMatchingAlgorithm.calculatePositionSimilarity`. -/
def calculatePositionSimilarity (m : TextMatch) (position : AnnotationPosition) : Rat :=
  let originalStart := position.primary.startOffset
  let distance : Rat := (((m.startOffset : Int) - originalStart).natAbs : Rat)
  let maxDistance : Rat := max 1000 ((originalStart : Rat) * (1 / 10))
  max 0 (1 - distance / maxDistance)

/-- `TextMatchingAlgorithm.calculateLengthSimilarity`. -/
def calculateLengthSimilarity (m : TextMatch) (position : AnnotationPosition) : Rat :=
  let originalLength := position.primary.selectedText.length
  let matchLength := m.text.length
  if originalLength = 0 then (if matchLength = 0 then 1 else 0)
  else ((min matchLength originalLength : Nat) : Rat) / ((max matchLength originalLength : Nat) : Rat)

/-- `TextMatchingAlgorithm.calculateMatchScore`: 0.3 position + 0.4 text +
0.3 length. -/
def calculateMatchScore (m : TextMatch) (position : AnnotationPosition) : Rat :=
  calculatePositionSimilarity m position * (3 / 10) +
  calculateTextSimilarityTMA m.text position.primary.selectedText * (2 / 5) +
  calculateLengthSimilarity m position * (3 / 10)

/-- `TextMatchingAlgorithm.locateExactText` (never null in the source:
falls back to the whole matched window with confidence 0.7). -/
def locateExactText (doc : Str) (m : TextMatch) (targetText : Str) : TextRange :=
  let searchArea := sliceN doc m.startOffset m.endOffset
  match strIndexOf? searchArea targetText with
  | some targetIndex =>
    let absoluteStart := m.startOffset + targetIndex
    ⟨(absoluteStart : Int), ((absoluteStart + targetText.length : Nat) : Int),
      targetText, some (19 / 20)⟩
  | none => ⟨(m.startOffset : Int), (m.endOffset : Int), m.text, some (7 / 10)⟩

/-- `TextMatchingAlgorithm.findByContextMatch`.  `selectBestMatch` is the
source's `reduce` with initial value `matches[0]` (strictly-greater score
wins, so the earliest of tied candidates is kept). -/
def findByContextMatch (textContent : Str) (position : AnnotationPosition) :
    Option TextRange :=
  match findMatches textContent position.context.before position.context.after with
  | [] => none
  | m :: rest =>
    let bestMatch := (m :: rest).foldl
      (fun best current =>
        if calculateMatchScore best position < calculateMatchScore current position
        then current else best) m
    some (locateExactText textContent bestMatch position.primary.selectedText)

/-! ## TextMatchingAlgorithm: fingerprint match -/

/-- `TextMatchingAlgorithm.generateTextFingerprint`: lowercase, split on
whitespace, keep words longer than 2, join word 3-grams with `|`. -/
def generateTextFingerprintTMA (text : Str) : Str :=
  let words := (jsSplitWs (lowerStr text)).filter (fun w => 2 < w.length)
  let trigrams := (List.range (words.length - 2)).map
    (fun i => List.intercalate [' '] ((words.drop i).take 3))
  List.intercalate ['|'] trigrams

/-- `TextMatchingAlgorithm.compareFingerprints`: Jaccard similarity of the
`|`-separated shingle sets, with the `|| 1` union guard, compared to 0.3. -/
def compareFingerprints (fp1 fp2 : Str) : Bool :=
  let t1 := tokenSet (fp1.splitOn '|')
  let t2 := tokenSet (fp2.splitOn '|')
  let u := unionCount t1 t2
  decide ((3 / 10 : Rat) < (interCount t1 t2 : Rat) / ((if u = 0 then 1 else u : Nat) : Rat))

/-- The sliding-window loop of `findByTextFingerprint`
(`for (i = 0; i <= len - window; i += step)`).  Fuel `doc.length + 1`
covers every iteration since the step is at least 1. -/
def fpLoop (doc target fp : Str) : Nat → Nat → Option TextRange
  | 0, _ => none
  | fuel + 1, i =>
    if i + target.length ≤ doc.length then
      let candidate := sliceN doc i (i + target.length)
      let similarity := calculateTextSimilarityTMA target candidate
      if compareFingerprints fp (generateTextFingerprintTMA candidate) &&
         decide ((4 / 5 : Rat) < similarity) then
        some ⟨(i : Int), ((i + target.length : Nat) : Int), candidate, some similarity⟩
      else fpLoop doc target fp fuel (i + max 1 (target.length / 4))
    else none

/-- `TextMatchingAlgorithm.findByTextFingerprint`. -/
def findByTextFingerprint (textContent : Str) (position : AnnotationPosition) :
    Option TextRange :=
  fpLoop textContent position.primary.selectedText position.fingerprint
    (textContent.length + 1) 0

/-! ## TextMatchingAlgorithm: fuzzy match

The pattern is `words.join("\\s*")` with the `gi` flags; words come from
splitting the stored text on whitespace and are matched literally (see the
header note), with a greedy `\s*` gap between consecutive words.  Because a
split word never starts with whitespace, the greedy gap needs no
backtracking: the maximal whitespace run is the only viable gap. -/

def wsRunLen (s : Str) : Nat := (s.takeWhile jsIsWs).length

/-- Match the word chunks separated by `\s*` starting at `p`; returns the
end position. -/
def fuzzyChunkMatch (doc : Str) : List Str → Nat → Option Nat
  | [], p => some p
  | [w], p => if ciPrefix w (doc.drop p) then some (p + w.length) else none
  | w :: w2 :: ws, p =>
    if ciPrefix w (doc.drop p) then
      let q := p + w.length
      fuzzyChunkMatch doc (w2 :: ws) (q + wsRunLen (doc.drop q))
    else none

/-- First (leftmost) match of the fuzzy pattern, as produced by
`matchAll(...)[0]`. -/
def fuzzyFirstMatch (doc : Str) (ws : List Str) : Option (Nat × Nat) :=
  (List.range (doc.length + 1)).findSome?
    (fun p => (fuzzyChunkMatch doc ws p).map (fun e => (p, e)))

/-- `TextMatchingAlgorithm.findBestSubstringMatch`; the source's
`findOriginalPosition` returns the normalized index unchanged, so the
original text is sliced at the index found in the normalized text. -/
def findBestSubstringMatch (textContent targetText : Str) : Option TextRange :=
  let normalizedTarget := normalizeTextTMA targetText
  let normalizedContent := normalizeTextTMA textContent
  match strIndexOf? normalizedContent normalizedTarget with
  | some idx =>
    some ⟨(idx : Int), ((idx + targetText.length : Nat) : Int),
      sliceN textContent idx (idx + targetText.length), some (4 / 5)⟩
  | none => none

/-- `TextMatchingAlgorithm.findByFuzzyMatch`.  The source's `maxDistance`
is computed but never used; for literal word chunks the `new RegExp` call
cannot throw, so the catch branch is dead and both the no-match case and
the low-similarity case fall through to the substring search. -/
def findByFuzzyMatch (textContent : Str) (position : AnnotationPosition) :
    Option TextRange :=
  let targetText := position.primary.selectedText
  let words := jsSplitWs targetText
  match fuzzyFirstMatch textContent words with
  | some pe =>
    let matchedText := sliceN textContent pe.1 pe.2
    let similarity := calculateTextSimilarityTMA targetText matchedText
    if (3 / 5 : Rat) < similarity then
      some ⟨(pe.1 : Int), (pe.2 : Int), matchedText, some similarity⟩
    else findBestSubstringMatch textContent targetText
  | none => findBestSubstringMatch textContent targetText

/-! ## StructuralAnalyzer -/

/-- JS truthiness of an optional string (`undefined` and `""` are falsy). -/
def jsTruthyStr : Option Str → Bool
  | none => false
  | some s => ! s.isEmpty

/-- JS truthiness of an optional number (`undefined` and `0` are falsy). -/
def jsTruthyInt : Option Int → Bool
  | none => false
  | some k => k != 0

/-- `StructuralAnalyzer.findByParagraphIndex`: search the window around the
300-character paragraph bucket for the stored text, fixed confidence 0.8. -/
def findByParagraphIndex (textContent : Str) (paragraphIndex : Int)
    (targetText : Str) : Option TextRange :=
  let estimatedOffset := paragraphIndex * 300
  let searchStart := max 0 (estimatedOffset - 100)
  let searchEnd := min (textContent.length : Int) (estimatedOffset + 600)
  let searchArea := jsSlice textContent searchStart searchEnd
  match strIndexOf? searchArea targetText with
  | some targetIndex =>
    let absoluteStart := searchStart + targetIndex
    some ⟨absoluteStart, absoluteStart + targetText.length, targetText, some (4 / 5)⟩
  | none => none

/-- `StructuralAnalyzer.findByElementPath`: plain whole-document substring
search, fixed confidence 0.9 (the path string itself is ignored by the
source). -/
def findByElementPath (textContent targetText : Str) : Option TextRange :=
  match strIndexOf? textContent targetText with
  | some index =>
    some ⟨(index : Int), ((index + targetText.length : Nat) : Int), targetText, some (9 / 10)⟩
  | none => none

/-- `StructuralAnalyzer.findByStructuralPath`: paragraph index (tested with
`!== undefined`, so index 0 runs) takes priority; the element path is
tested for truthiness. -/
def structuralFindByStructuralPath (textContent : Str)
    (position : AnnotationPosition) : Option TextRange :=
  match position.structural.paragraphIndex with
  | some k => findByParagraphIndex textContent k position.primary.selectedText
  | none =>
    match position.structural.elementPath with
    | some p =>
      if p.isEmpty then none
      else findByElementPath textContent position.primary.selectedText
    | none => none

/-- `PositionService.findByStructuralPath`: the orchestrator-side guard
`!structural.elementPath && !structural.paragraphIndex` uses JS
truthiness, so `paragraphIndex === 0` and `elementPath === ""` count as
missing here. -/
def findByStructuralPathStrategy (textContent : Str)
    (position : AnnotationPosition) : Option TextRange :=
  if ! jsTruthyStr position.structural.elementPath &&
     ! jsTruthyInt position.structural.paragraphIndex then none
  else structuralFindByStructuralPath textContent position

def intToStr (k : Int) : Str := (toString k).toList

/-- `StructuralAnalyzer.analyze` (the textId is irrelevant to the result;
chapter and article ids are the source's simulated bucket lookups, which
always produce a truthy string). -/
def analyzeStructural (startOffset : Int) (elementPath : Option Str) :
    StructuralPath :=
  { chapterId := some ("chapter_".toList ++ intToStr (Int.fdiv startOffset 5000))
    articleId := some ("article_".toList ++ intToStr (Int.fdiv startOffset 1000))
    sectionId := none
    paragraphIndex := some (Int.fdiv startOffset 300)
    elementPath := if jsTruthyStr elementPath then elementPath else none }

/-! ## PositionService: validation, confidence, update, creation -/

/-- `PositionService.validatePosition`: non-empty text, length within a
factor 2 of the original, and text similarity at least 0.6.  (For an empty
original the length quotient is `Infinity` in JS and `0` in `Rat`; both
fail the band check, so the verdict agrees.) -/
def validatePosition (result : TextRange) (originalPosition : AnnotationPosition) : Bool :=
  if result.text.isEmpty then false
  else
    let originalLength := originalPosition.primary.selectedText.length
    let lengthQuot : Rat := (result.text.length : Rat) / (originalLength : Rat)
    if lengthQuot < 1 / 2 || 2 < lengthQuot then false
    else decide ((3 / 5 : Rat) ≤
      calculateTextSimilarityPS result.text originalPosition.primary.selectedText)

/-- `PositionService.calculatePositionAccuracy`: average of start and end
accuracy, each `max(0, 1 - diff / max(spanLength*0.1, 10))`. -/
def calculatePositionAccuracy (result : TextRange) (originalPosition : AnnotationPosition) : Rat :=
  let originalStart := originalPosition.primary.startOffset
  let originalEnd := originalPosition.primary.endOffset
  let startDiff : Rat := ((result.startOffset - originalStart).natAbs : Rat)
  let endDiff : Rat := ((result.endOffset - originalEnd).natAbs : Rat)
  let textLength := originalEnd - originalStart
  let maxAllowedDiff : Rat := max ((textLength : Rat) * (1 / 10)) 10
  let startAccuracy := max 0 (1 - startDiff / maxAllowedDiff)
  let endAccuracy := max 0 (1 - endDiff / maxAllowedDiff)
  (startAccuracy + endAccuracy) / 2

/-- `PositionService.calculateLengthConsistency`. -/
def calculateLengthConsistency (result : TextRange) (originalPosition : AnnotationPosition) : Rat :=
  let originalLength := originalPosition.primary.selectedText.length
  let currentLength := result.text.length
  if originalLength = 0 then (if currentLength = 0 then 1 else 0)
  else ((min currentLength originalLength : Nat) : Rat) /
       ((max currentLength originalLength : Nat) : Rat)

/-- `PositionService.calculateContextMatch`: the source returns the fixed
placeholder 0.8 regardless of its arguments. -/
def calculateContextMatch (_result : TextRange) (_originalPosition : AnnotationPosition) : Rat :=
  4 / 5

/-- `PositionService.calculateMatchConfidence`: the weighted blend
`0.4 text + 0.3 position + 0.2 length + 0.1 context`, capped at 1. -/
def calculateMatchConfidence (result : TextRange) (originalPosition : AnnotationPosition) : Rat :=
  let textSimilarity := calculateTextSimilarityPS result.text originalPosition.primary.selectedText
  let positionAccuracy := calculatePositionAccuracy result originalPosition
  let lengthConsistency := calculateLengthConsistency result originalPosition
  let contextMatch := calculateContextMatch result originalPosition
  min (textSimilarity * (2 / 5) + positionAccuracy * (3 / 10) +
       lengthConsistency * (1 / 5) + contextMatch * (1 / 10)) 1

/-- JS `x || d` on an optional number (`undefined` and `0` are falsy). -/
def jsOrRat : Option Rat → Rat → Rat
  | none, d => d
  | some x, d => if x = 0 then d else x

/-- `PositionService.updatePosition`: spread of the original locator with a
new primary block and `metadata.confidence = newRange.confidence || 0.8`. -/
def updatePosition (originalPosition : AnnotationPosition) (newRange : TextRange) : AnnotationPosition :=
  { originalPosition with
    primary := ⟨newRange.startOffset, newRange.endOffset, newRange.text⟩
    metadata := { originalPosition.metadata with
                  confidence := jsOrRat newRange.confidence (4 / 5) } }

/-- `PositionService.generateContextHash`. -/
def generateContextHash (contextBefore selectedText contextAfter : Str) : Str :=
  hashUtilSha256 (contextBefore ++ selectedText ++ contextAfter)

/-- `PositionService.generateTextFingerprint`: word trigrams of
`contextBefore + selectedText + contextAfter` (no lowercasing here, unlike
the TextMatchingAlgorithm variant), hashed. -/
def generateTextFingerprintPS (selectedText contextBefore contextAfter : Str) : Str :=
  let combined := contextBefore ++ selectedText ++ contextAfter
  let words := (jsSplitWs combined).filter (fun w => 2 < w.length)
  let trigrams := (List.range (words.length - 2)).map
    (fun i => List.intercalate [' '] ((words.drop i).take 3))
  hashUtilSha256 (List.intercalate ['|'] trigrams)

/-- `PositionService.calculatePositionConfidence` (creation-time heuristic). -/
def calculatePositionConfidence (selectionData : SelectionData) : Rat :=
  let c1 : Rat := 1 / 2
  let c2 := if 10 < selectionData.selectedText.length then c1 + 1 / 10 else c1
  let c3 := if 50 < selectionData.selectedText.length then c2 + 1 / 10 else c2
  let c4 := if 20 < selectionData.contextBefore.length then c3 + 1 / 10 else c3
  let c5 := if 20 < selectionData.contextAfter.length then c4 + 1 / 10 else c4
  let c6 := if jsTruthyStr selectionData.elementPath then c5 + 1 / 5 else c5
  min c6 1

/-- `PositionService.calculatePosition` (the textId only feeds the
simulated structural lookups and does not influence the result; `createdAt`
is wall clock, modelled as 0). -/
def calculatePosition (selectionData : SelectionData) : AnnotationPosition :=
  { primary := ⟨selectionData.startOffset, selectionData.endOffset,
                selectionData.selectedText⟩
    context := ⟨jsSliceFrom selectionData.contextBefore (-50),
                jsSlice selectionData.contextAfter 0 50,
                generateContextHash selectionData.contextBefore
                  selectionData.selectedText selectionData.contextAfter⟩
    structural := analyzeStructural selectionData.startOffset selectionData.elementPath
    fingerprint := generateTextFingerprintPS selectionData.selectedText
                     selectionData.contextBefore selectionData.contextAfter
    metadata := ⟨0, selectionData.selectedText.length,
                 calculatePositionConfidence selectionData⟩ }

/-! ## PositionService: the strategy cascade -/

/-- The fixed strategy order of `findAnnotationPosition`. -/
def strategyOrder : List PositioningMethod :=
  [.primary_position, .context_match, .text_fingerprint, .structural_path, .fuzzy_match]

def stratFun : PositioningMethod → Str → AnnotationPosition → Option TextRange
  | .primary_position => findByPrimaryPosition
  | .context_match => findByContextMatch
  | .text_fingerprint => findByTextFingerprint
  | .structural_path => findByStructuralPathStrategy
  | .fuzzy_match => findByFuzzyMatch

/-- One strategy attempt of the cascade body: run the strategy, validate
the candidate, and recompute its confidence. -/
def attempt (textContent : Str) (position : AnnotationPosition)
    (m : PositioningMethod) : Option (TextRange × Rat) :=
  match stratFun m textContent position with
  | none => none
  | some r =>
    if validatePosition r position then some (r, calculateMatchConfidence r position)
    else none

/-- Whether strategy `m` produces a validated candidate whose recomputed
confidence reaches the threshold (the immediate-return condition). -/
def hitB (textContent : Str) (position : AnnotationPosition)
    (minConfidence : Rat) (m : PositioningMethod) : Bool :=
  match attempt textContent position m with
  | some rc => decide (minConfidence ≤ rc.2)
  | none => false

def attemptMatch (textContent : Str) (position : AnnotationPosition)
    (m : PositioningMethod) : Option AnnotationMatch :=
  (attempt textContent position m).map (fun rc => ⟨rc.1, rc.2, m⟩)

/-- All validated candidates (with recomputed confidences) the strategies
of `L` would contribute, in order. -/
def validList (textContent : Str) (position : AnnotationPosition)
    (L : List PositioningMethod) : List AnnotationMatch :=
  L.filterMap (attemptMatch textContent position)

/-- The comparator of the source's `matches.reduce` (strictly greater
confidence wins, so the earliest of tied candidates is kept). -/
def pickBetter (best current : AnnotationMatch) : AnnotationMatch :=
  if best.confidence < current.confidence then current else best

/-- Lines 141-173 of the orchestrator: after the loop, return success with
the best match if it reaches 0.5, otherwise the failure result with
confidence 0 (`errors` is always empty in the embedding, see header). -/
def finishCascade (position : AnnotationPosition) (ms : List AnnotationMatch)
    (used : List PositioningMethod) : PositioningResult :=
  match ms with
  | [] => ⟨false, none, [], [], ⟨used.length, used, 0⟩⟩
  | m0 :: rest =>
    let bestMatch := rest.foldl pickBetter m0
    if (1 / 2 : Rat) ≤ bestMatch.confidence then
      ⟨true, some (updatePosition position bestMatch.range), m0 :: rest, [],
        ⟨used.length, used, bestMatch.confidence⟩⟩
    else ⟨false, none, m0 :: rest, [], ⟨used.length, used, 0⟩⟩

/-- The strategy loop of `findAnnotationPosition`: push the method onto
`strategiesUsed`, attempt the strategy, and on a validated candidate that
reaches the threshold return immediately with only that match. -/
def runStrategies (textContent : Str) (position : AnnotationPosition) (minConfidence : Rat) :
    List PositioningMethod → List AnnotationMatch → List PositioningMethod → PositioningResult
  | [], ms, used => finishCascade position ms used
  | m :: rest, ms, used =>
    let used' := used ++ [m]
    match attempt textContent position m with
    | some rc =>
      if minConfidence ≤ rc.2 then
        ⟨true, some (updatePosition position rc.1), [⟨rc.1, rc.2, m⟩], [],
          ⟨used'.length, used', rc.2⟩⟩
      else runStrategies textContent position minConfidence rest (ms ++ [⟨rc.1, rc.2, m⟩]) used'
    | none => runStrategies textContent position minConfidence rest ms used'

/-- `PositionService.findAnnotationPosition` (the default threshold of the
source is 0.7; it is passed explicitly here). -/
def findAnnotationPosition (textContent : Str) (position : AnnotationPosition)
    (minConfidence : Rat) : PositioningResult :=
  runStrategies textContent position minConfidence strategyOrder [] []

/-- Whether the JS cascade diverges on this input: the context-match scan
is the only non-terminating code path, and it is executed exactly when the
primary strategy does not return immediately. -/
def cascadeHangs (textContent : Str) (position : AnnotationPosition)
    (minConfidence : Rat) : Bool :=
  ! hitB textContent position minConfidence .primary_position &&
  findMatchesDiverges textContent position.context.before position.context.after

/-- The observable behaviour of the source's `findAnnotationPosition`:
`none` when the call never returns (the cascade reaches the context scan
with a pattern that loops forever), otherwise the terminating result. -/
def findAnnotationPositionJS (textContent : Str) (position : AnnotationPosition)
    (minConfidence : Rat) : Option PositioningResult :=
  if cascadeHangs textContent position minConfidence then none
  else some (findAnnotationPosition textContent position minConfidence)

/-! ## Spec-side descriptions used by refinement claims -/

def fpWindowStep (w : Nat) : Nat := max 1 (w / 4)

/-- The window start offsets described by the fingerprint-match claim:
`0, step, 2*step, ...` while the window fits in the document. -/
def fpWindowStarts (len w : Nat) : List Nat :=
  if w ≤ len then (List.range ((len - w) / fpWindowStep w + 1)).map (fun k => k * fpWindowStep w)
  else []

/-- Arithmetic progression `start, start+step, ...` of `count` terms. -/
def progression (start step count : Nat) : List Nat :=
  (List.range count).map (fun k => start + k * step)

/-- Number of loop iterations of the fingerprint window scan that remain
from index `i`. -/
def countFrom (len w i : Nat) : Nat :=
  if i + w ≤ len then (len - w - i) / fpWindowStep w + 1 else 0

/-- The fingerprint strategy as described by the specification: among the
windows of the stored text's length, taken in step order, the first one
passing the Jaccard fingerprint gate whose text similarity exceeds 0.8,
with confidence equal to that similarity. -/
def fingerprintSearchDescribed (doc : Str) (pos : AnnotationPosition) : Option TextRange :=
  let target := pos.primary.selectedText
  let w := target.length
  (fpWindowStarts doc.length w).findSome? (fun i =>
    let window := sliceN doc i (i + w)
    let sim := calculateTextSimilarityTMA target window
    if compareFingerprints pos.fingerprint (generateTextFingerprintTMA window) &&
       decide ((4 / 5 : Rat) < sim) then
      some ⟨(i : Int), ((i + w : Nat) : Int), window, some sim⟩
    else none)

/-- The structural strategy exactly as the claim states it: skipped iff
neither `elementPath` nor `paragraphIndex` is set; with `paragraphIndex`
present, search the bucket window with confidence 0.8; with only
`elementPath` present, search the whole document with confidence 0.9. -/
def structuralDescribedClaim (doc : Str) (pos : AnnotationPosition) : Option TextRange :=
  let target := pos.primary.selectedText
  match pos.structural.paragraphIndex, pos.structural.elementPath with
  | none, none => none
  | some k, _ =>
    let est := k * 300
    let lo := max 0 (est - 100)
    let hi := min (doc.length : Int) (est + 600)
    match strIndexOf? (jsSlice doc lo hi) target with
    | some ti => some ⟨lo + ti, lo + ti + target.length, target, some (4 / 5)⟩
    | none => none
  | none, some _ =>
    match strIndexOf? doc target with
    | some i => some ⟨(i : Int), ((i + target.length : Nat) : Int), target, some (9 / 10)⟩
    | none => none

/-- The structural strategy as amended: the skip test uses JS truthiness
(an absent or empty `elementPath` and an absent or zero `paragraphIndex`
both count as unset), and within the analyzer the element-path branch also
requires a non-empty path. -/
def structuralDescribedAmended (doc : Str) (pos : AnnotationPosition) : Option TextRange :=
  let target := pos.primary.selectedText
  if (pos.structural.elementPath = none ∨ pos.structural.elementPath = some []) ∧
     (pos.structural.paragraphIndex = none ∨ pos.structural.paragraphIndex = some 0) then none
  else
    match pos.structural.paragraphIndex with
    | some k =>
      let est := k * 300
      let lo := max 0 (est - 100)
      let hi := min (doc.length : Int) (est + 600)
      match strIndexOf? (jsSlice doc lo hi) target with
      | some ti => some ⟨lo + ti, lo + ti + target.length, target, some (4 / 5)⟩
      | none => none
    | none =>
      match pos.structural.elementPath with
      | some p =>
        if p = [] then none
        else
          match strIndexOf? doc target with
          | some i => some ⟨(i : Int), ((i + target.length : Nat) : Int), target, some (9 / 10)⟩
          | none => none
      | none => none

/-! ## Concrete instances (the examples of the specification) -/

/-- The round-trip example document. -/
def rtDoc : Str := "第一條 規定如下：任何人不得...".toList

/-- The round-trip selection: offsets `[4,6)`, i.e. the two characters
`規定`, with the surrounding text as captured context. -/
def rtSelection : SelectionData :=
  ⟨"規定".toList, 4, 6, "第一條 ".toList, "如下：任何人不得...".toList, none⟩

/-- The locator built from the round-trip selection. -/
def rtLocator : AnnotationPosition := calculatePosition rtSelection

/-- The drift example document: ten unrelated characters inserted before
offset 0 of the round-trip document. -/
def driftDoc : Str := "ABCDEFGHIJ".toList ++ rtDoc

/-- A document from which the selected text and all its context have been
removed (the unresolvable example). -/
def lostDoc : Str := "XYZ".toList

/-- A locator whose structural address has `paragraphIndex = 0` and no
element path (JS-falsy on both counts). -/
def bucketZeroPos : AnnotationPosition :=
  { rtLocator with structural := ⟨none, none, none, some 0, none⟩ }

/-- A locator whose stored context strings are both empty: the context
scan loops forever on every document. -/
def hangPos : AnnotationPosition :=
  ⟨⟨0, 2, "ab".toList⟩, ⟨[], [], []⟩, ⟨none, none, none, none, none⟩,
    "z".toList, ⟨0, 2, 1 / 2⟩⟩

/-- A document on which `hangPos` misses at the primary offsets but a later
strategy holds a validated candidate above the default threshold. -/
def hangDocC1 : Str := "xxab".toList

/-- A document on which `hangPos` has no validated candidate at all. -/
def hangDocC4 : Str := "xy".toList

/-- The locator with its context hash replaced (all other fields kept). -/
def withContextHash (pos : AnnotationPosition) (h : Str) : AnnotationPosition :=
  { pos with context := { pos.context with hash := h } }

/-! ## Characterisation of the cascade

Helper lemmas describing a cascade run by the first threshold-reaching
strategy (`runStrategies_hit`) or, when no strategy reaches the threshold,
by the list of validated candidates (`runStrategies_miss`). -/

theorem hitB_eq_true (tc : Str) (pos : AnnotationPosition) (mc : Rat) (m : PositioningMethod)
    (r : TextRange) (c : Rat) (h : attempt tc pos m = some (r, c)) :
    hitB tc pos mc m = decide (mc ≤ c) := by
  simp [hitB, h]

theorem hitB_none (tc : Str) (pos : AnnotationPosition) (mc : Rat) (m : PositioningMethod)
    (h : attempt tc pos m = none) : hitB tc pos mc m = false := by
  simp [hitB, h]

theorem validList_cons (tc : Str) (pos : AnnotationPosition) (a : PositioningMethod)
    (t : List PositioningMethod) :
    validList tc pos (a :: t) =
      (match attempt tc pos a with
       | some rc => (⟨rc.1, rc.2, a⟩ : AnnotationMatch) :: validList tc pos t
       | none => validList tc pos t) := by
  cases h : attempt tc pos a <;> simp [validList, List.filterMap_cons, attemptMatch, h]

theorem runStrategies_hit (tc : Str) (pos : AnnotationPosition) (mc : Rat)
    (L : List PositioningMethod) (ms : List AnnotationMatch) (used : List PositioningMethod)
    (m : PositioningMethod) (rest : List PositioningMethod)
    (hsplit : L.dropWhile (fun x => ! hitB tc pos mc x) = m :: rest)
    (r : TextRange) (c : Rat) (hatt : attempt tc pos m = some (r, c)) :
    runStrategies tc pos mc L ms used =
      ⟨true, some (updatePosition pos r), [⟨r, c, m⟩], [],
        ⟨(used ++ L.takeWhile (fun x => ! hitB tc pos mc x) ++ [m]).length,
         used ++ L.takeWhile (fun x => ! hitB tc pos mc x) ++ [m], c⟩⟩ := by
  induction L generalizing ms used with
  | nil => simp at hsplit
  | cons a t ih =>
    by_cases ha : hitB tc pos mc a = true
    · rw [List.dropWhile_cons_of_neg (by simp [ha])] at hsplit
      injection hsplit with h1 h2
      subst h1; subst h2
      have hc : mc ≤ c := by
        rw [hitB_eq_true tc pos mc a r c hatt] at ha
        exact of_decide_eq_true ha
      rw [List.takeWhile_cons_of_neg (by simp [ha])]
      simp [runStrategies, hatt, hc]
    · have ha' : hitB tc pos mc a = false := by simpa using ha
      rw [List.dropWhile_cons_of_pos (by simp [ha'])] at hsplit
      rw [List.takeWhile_cons_of_pos (by simp [ha'])]
      cases hA : attempt tc pos a with
      | none =>
        have step : runStrategies tc pos mc (a :: t) ms used
            = runStrategies tc pos mc t ms (used ++ [a]) := by
          simp [runStrategies, hA]
        rw [step, ih ms (used ++ [a]) hsplit]
        simp
      | some rc =>
        have hnc : ¬ (mc ≤ rc.2) := by
          rw [hitB_eq_true tc pos mc a rc.1 rc.2 (by rw [hA])] at ha'
          simpa using ha'
        have step : runStrategies tc pos mc (a :: t) ms used
            = runStrategies tc pos mc t (ms ++ [⟨rc.1, rc.2, a⟩]) (used ++ [a]) := by
          simp [runStrategies, hA, hnc]
        rw [step, ih _ _ hsplit]
        simp

theorem runStrategies_miss (tc : Str) (pos : AnnotationPosition) (mc : Rat)
    (L : List PositioningMethod) (ms : List AnnotationMatch) (used : List PositioningMethod)
    (hall : L.dropWhile (fun x => ! hitB tc pos mc x) = []) :
    runStrategies tc pos mc L ms used
      = finishCascade pos (ms ++ validList tc pos L) (used ++ L) := by
  induction L generalizing ms used with
  | nil => simp [runStrategies, validList]
  | cons a t ih =>
    have ha' : hitB tc pos mc a = false := by
      by_contra h
      rw [List.dropWhile_cons_of_neg (by simpa using h)] at hall
      exact List.cons_ne_nil a t hall
    rw [List.dropWhile_cons_of_pos (by simp [ha'])] at hall
    cases hA : attempt tc pos a with
    | none =>
      have step : runStrategies tc pos mc (a :: t) ms used
          = runStrategies tc pos mc t ms (used ++ [a]) := by
        simp [runStrategies, hA]
      rw [step, ih ms (used ++ [a]) hall, validList_cons]
      simp [hA]
    | some rc =>
      have hnc : ¬ (mc ≤ rc.2) := by
        rw [hitB_eq_true tc pos mc a rc.1 rc.2 (by rw [hA])] at ha'
        simpa using ha'
      have step : runStrategies tc pos mc (a :: t) ms used
          = runStrategies tc pos mc t (ms ++ [⟨rc.1, rc.2, a⟩]) (used ++ [a]) := by
        simp [runStrategies, hA, hnc]
      rw [step, ih _ _ hall, validList_cons]
      simp [hA]

theorem find?_eq_head_dropWhile {α : Type} (p : α → Bool) (l : List α) :
    l.find? p = (l.dropWhile (fun a => ! p a)).head? := by
  induction l with
  | nil => simp
  | cons a t ih =>
    by_cases h : p a = true
    · rw [List.find?_cons_of_pos _ h, List.dropWhile_cons_of_neg (by simp [h])]
      simp
    · rw [List.find?_cons_of_neg _ h, List.dropWhile_cons_of_pos (by simp [h])]
      exact ih

theorem take_len_succ {α : Type} (l1 : List α) (x : α) (l2 : List α) :
    (l1 ++ x :: l2).take (l1.length + 1) = l1 ++ [x] := by
  induction l1 with
  | nil => simp
  | cons a t ih => simp [ih]

theorem finishCascade_fields (pos : AnnotationPosition) (ms : List AnnotationMatch)
    (used : List PositioningMethod) :
    (finishCascade pos ms used).metadata.strategiesUsed = used
    ∧ (finishCascade pos ms used).metadata.totalAttempts = used.length := by
  cases ms with
  | nil => simp [finishCascade]
  | cons m0 rest =>
    simp only [finishCascade]
    split <;> simp

theorem attempt_of_hit (tc : Str) (pos : AnnotationPosition) (mc : Rat)
    (m : PositioningMethod) (h : hitB tc pos mc m = true) :
    ∃ r c, attempt tc pos m = some (r, c) := by
  cases hA : attempt tc pos m with
  | none => rw [hitB_none tc pos mc m hA] at h; exact absurd h (by simp)
  | some rc => obtain ⟨r, c⟩ := rc; exact ⟨r, c, rfl⟩

/-- The order/short-circuit description of a terminating cascade run: the
strategies are attempted in the fixed order, every attempted method is
recorded, and the first validated candidate whose recomputed confidence
reaches the threshold is returned immediately. -/
theorem runCascade_order (doc : Str) (pos : AnnotationPosition) (mc : Rat) :
    (findAnnotationPosition doc pos mc).metadata.strategiesUsed
      = strategyOrder.take (findAnnotationPosition doc pos mc).metadata.totalAttempts
  ∧ ((findAnnotationPosition doc pos mc).metadata.strategiesUsed).length
      = (findAnnotationPosition doc pos mc).metadata.totalAttempts
  ∧ (∀ m r c, strategyOrder.find? (hitB doc pos mc) = some m →
      attempt doc pos m = some (r, c) →
      (findAnnotationPosition doc pos mc).success = true
      ∧ (findAnnotationPosition doc pos mc).matchList = [⟨r, c, m⟩]
      ∧ (findAnnotationPosition doc pos mc).metadata.confidence = c
      ∧ (findAnnotationPosition doc pos mc).position = some (updatePosition pos r)
      ∧ (findAnnotationPosition doc pos mc).metadata.totalAttempts
          = (strategyOrder.takeWhile (fun x => ! hitB doc pos mc x)).length + 1)
  ∧ (strategyOrder.find? (hitB doc pos mc) = none →
      (findAnnotationPosition doc pos mc).metadata.strategiesUsed = strategyOrder) := by
  cases hf : strategyOrder.find? (hitB doc pos mc) with
  | some m =>
    rw [find?_eq_head_dropWhile] at hf
    obtain ⟨rest, hd⟩ : ∃ rest,
        strategyOrder.dropWhile (fun x => ! hitB doc pos mc x) = m :: rest := by
      cases hcase : strategyOrder.dropWhile (fun x => ! hitB doc pos mc x) with
      | nil => rw [hcase] at hf; simp at hf
      | cons b u =>
        rw [hcase] at hf
        simp at hf
        exact ⟨u, by rw [hf]⟩
    have hm : hitB doc pos mc m = true := by
      have hh := List.head?_dropWhile_not (fun x => ! hitB doc pos mc x) strategyOrder
      rw [hd] at hh
      simp at hh
      exact hh
    obtain ⟨r0, c0, hatt0⟩ := attempt_of_hit doc pos mc m hm
    have hrun := runStrategies_hit doc pos mc strategyOrder [] [] m rest hd r0 c0 hatt0
    have hres : findAnnotationPosition doc pos mc =
        ⟨true, some (updatePosition pos r0), [⟨r0, c0, m⟩], [],
          ⟨(strategyOrder.takeWhile (fun x => ! hitB doc pos mc x) ++ [m]).length,
           strategyOrder.takeWhile (fun x => ! hitB doc pos mc x) ++ [m], c0⟩⟩ := by
      rw [findAnnotationPosition, hrun]; simp
    have hdecomp : strategyOrder
        = strategyOrder.takeWhile (fun x => ! hitB doc pos mc x) ++ m :: rest := by
      conv_lhs => rw [← List.takeWhile_append_dropWhile
        (p := fun x => ! hitB doc pos mc x) (l := strategyOrder)]
      rw [hd]
    refine ⟨?_, ?_, ?_, ?_⟩
    · rw [hres]
      simp only [List.length_append, List.length_cons, List.length_nil]
      generalize hTW : strategyOrder.takeWhile (fun x => ! hitB doc pos mc x) = tw at hdecomp
      conv_rhs => rw [hdecomp]
      simpa using (take_len_succ tw m rest).symm
    · rw [hres]
    · intro m' r c hf' hatt'
      injection hf' with hmm
      subst hmm
      rw [hatt0] at hatt'
      injection hatt' with h2
      have hrr : r0 = r := congrArg Prod.fst h2
      have hcc : c0 = c := congrArg Prod.snd h2
      subst hrr; subst hcc
      rw [hres]
      simp
    · intro hn
      simp at hn
  | none =>
    rw [find?_eq_head_dropWhile] at hf
    have hd : strategyOrder.dropWhile (fun x => ! hitB doc pos mc x) = [] := by
      cases hcase : strategyOrder.dropWhile (fun x => ! hitB doc pos mc x) with
      | nil => rfl
      | cons b u => rw [hcase] at hf; simp at hf
    have hrun := runStrategies_miss doc pos mc strategyOrder [] [] hd
    have hres : findAnnotationPosition doc pos mc
        = finishCascade pos (validList doc pos strategyOrder) strategyOrder := by
      rw [findAnnotationPosition, hrun]; simp
    obtain ⟨hu, ht⟩ := finishCascade_fields pos (validList doc pos strategyOrder) strategyOrder
    refine ⟨?_, ?_, ?_, ?_⟩
    · rw [hres, hu, ht]
      rfl
    · rw [hres, hu, ht]
    · intro m r c hf' hatt'
      simp at hf'
    · intro hn
      rw [hres, hu]

/-- C3.  The primary-position recheck: invalid stored offsets (negative
start, end beyond the document, or start at or past end) yield no match
rather than an error; a byte-identical slice yields that range with
confidence 1.0; a slice identical only after normalisation yields
confidence 0.9; anything else yields null. -/
theorem claim_C3 (doc : Str) (pos : AnnotationPosition) :
    (pos.primary.startOffset < 0 ∨ (doc.length : Int) < pos.primary.endOffset
      ∨ pos.primary.endOffset ≤ pos.primary.startOffset →
      findByPrimaryPosition doc pos = none)
  ∧ (0 ≤ pos.primary.startOffset → pos.primary.endOffset ≤ (doc.length : Int) →
      pos.primary.startOffset < pos.primary.endOffset →
      jsSlice doc pos.primary.startOffset pos.primary.endOffset = pos.primary.selectedText →
      findByPrimaryPosition doc pos
        = some ⟨pos.primary.startOffset, pos.primary.endOffset, pos.primary.selectedText, some 1⟩)
  ∧ (0 ≤ pos.primary.startOffset → pos.primary.endOffset ≤ (doc.length : Int) →
      pos.primary.startOffset < pos.primary.endOffset →
      jsSlice doc pos.primary.startOffset pos.primary.endOffset ≠ pos.primary.selectedText →
      normalizeTextPS (jsSlice doc pos.primary.startOffset pos.primary.endOffset)
        = normalizeTextPS pos.primary.selectedText →
      findByPrimaryPosition doc pos
        = some ⟨pos.primary.startOffset, pos.primary.endOffset,
                jsSlice doc pos.primary.startOffset pos.primary.endOffset, some (9 / 10)⟩)
  ∧ (0 ≤ pos.primary.startOffset → pos.primary.endOffset ≤ (doc.length : Int) →
      pos.primary.startOffset < pos.primary.endOffset →
      jsSlice doc pos.primary.startOffset pos.primary.endOffset ≠ pos.primary.selectedText →
      normalizeTextPS (jsSlice doc pos.primary.startOffset pos.primary.endOffset)
        ≠ normalizeTextPS pos.primary.selectedText →
      findByPrimaryPosition doc pos = none) := by
  refine ⟨?_, ?_, ?_, ?_⟩
  · intro h
    simp only [findByPrimaryPosition]
    rw [if_pos]
    simp only [Bool.or_eq_true, decide_eq_true_eq]
    tauto
  · intro h1 h2 h3 h4
    simp only [findByPrimaryPosition]
    rw [if_neg (by simp; omega), if_pos h4]
    rw [h4]
  · intro h1 h2 h3 h4 h5
    simp only [findByPrimaryPosition]
    rw [if_neg (by simp; omega), if_neg h4, if_pos h5]
  · intro h1 h2 h3 h4 h5
    simp only [findByPrimaryPosition]
    rw [if_neg (by simp; omega), if_neg h4, if_neg h5]

/-- Witness for C3: the round-trip locator against its unchanged document
takes the byte-identical branch with confidence 1, and against the short
document the out-of-bounds guard yields no match. -/
theorem claim_C3_witness :
    findByPrimaryPosition rtDoc rtLocator = some ⟨4, 6, "規定".toList, some 1⟩
    ∧ findByPrimaryPosition lostDoc rtLocator = none := by
  constructor
  · have h := (claim_C3 rtDoc rtLocator).2.1 (by with_unfolding_all decide)
      (by with_unfolding_all decide) (by with_unfolding_all decide)
      (by with_unfolding_all rfl)
    rw [h]
    with_unfolding_all rfl
  · exact (claim_C3 lostDoc rtLocator).1 (by with_unfolding_all decide)

theorem findByPrimaryPosition_of_exact (doc : Str) (pos : AnnotationPosition)
    (h1 : 0 ≤ pos.primary.startOffset)
    (h3 : pos.primary.endOffset ≤ (doc.length : Int))
    (h2 : pos.primary.startOffset < pos.primary.endOffset)
    (h4 : jsSlice doc pos.primary.startOffset pos.primary.endOffset
          = pos.primary.selectedText) :
    findByPrimaryPosition doc pos
      = some ⟨pos.primary.startOffset, pos.primary.endOffset,
              pos.primary.selectedText, some 1⟩ := by
  simp only [findByPrimaryPosition]
  rw [if_neg (by simp; omega), if_pos h4, h4]

theorem jsSlice_length (doc : Str) (a b : Int) (h1 : 0 ≤ a) (h2 : a ≤ b)
    (h3 : b ≤ (doc.length : Int)) : (jsSlice doc a b).length = (b - a).toNat := by
  simp only [jsSlice, sliceN, List.length_take, List.length_drop]
  rw [if_neg (by omega), if_neg (by omega)]
  omega

theorem simPS_self (t : Str) : calculateTextSimilarityPS t t = 1 := by
  simp [calculateTextSimilarityPS]

theorem validate_self (pos : AnnotationPosition) (r : TextRange)
    (ht : r.text = pos.primary.selectedText)
    (hne : pos.primary.selectedText ≠ []) : validatePosition r pos = true := by
  have hlen : pos.primary.selectedText.length ≠ 0 :=
    fun h => hne (List.eq_nil_of_length_eq_zero h)
  simp only [validatePosition, ht]
  rw [if_neg (by simp [List.isEmpty_iff, hne])]
  rw [div_self (by exact_mod_cast hlen)]
  rw [if_neg (by norm_num)]
  rw [simPS_self]
  norm_num

theorem conf_self (pos : AnnotationPosition) (r : TextRange)
    (hs : r.startOffset = pos.primary.startOffset)
    (he : r.endOffset = pos.primary.endOffset)
    (ht : r.text = pos.primary.selectedText)
    (hne : pos.primary.selectedText ≠ []) :
    calculateMatchConfidence r pos = 49 / 50 := by
  have hlen0 : pos.primary.selectedText.length ≠ 0 :=
    fun h => hne (List.eq_nil_of_length_eq_zero h)
  have hlen : (pos.primary.selectedText.length : Rat) ≠ 0 := by exact_mod_cast hlen0
  simp only [calculateMatchConfidence, calculatePositionAccuracy,
    calculateLengthConsistency, calculateContextMatch, ht, hs, he, simPS_self]
  rw [sub_self, sub_self, Int.natAbs_zero]
  simp only [Nat.cast_zero, zero_div, sub_zero, min_self, max_self]
  rw [if_neg hlen0]
  rw [div_self hlen]
  norm_num

/-- C2 (amended).  If a locator is created by `calculatePosition` from a
selection with valid offsets whose document slice equals the selected
text, then `findAnnotationPosition` on the unchanged document with the
default threshold succeeds immediately via `primary_position`; the
reported result confidence is 0.98 (the recomputed blend with the fixed
0.8 context placeholder), while the updated locator carries the range
confidence 1.0. -/
theorem claim_C2_amended (doc : Str) (sel : SelectionData)
    (h1 : 0 ≤ sel.startOffset) (h2 : sel.startOffset < sel.endOffset)
    (h3 : sel.endOffset ≤ (doc.length : Int))
    (h4 : jsSlice doc sel.startOffset sel.endOffset = sel.selectedText) :
    (findAnnotationPosition doc (calculatePosition sel) (7 / 10)).success = true
    ∧ (findAnnotationPosition doc (calculatePosition sel) (7 / 10)).matchList.map
        (fun m => m.method) = [.primary_position]
    ∧ (findAnnotationPosition doc (calculatePosition sel) (7 / 10)).metadata.confidence
        = 49 / 50
    ∧ (findAnnotationPosition doc (calculatePosition sel) (7 / 10)).metadata.totalAttempts = 1
    ∧ (findAnnotationPosition doc (calculatePosition sel) (7 / 10)).position.map
        (fun p => p.metadata.confidence) = some 1 := by
  have hne : sel.selectedText ≠ [] := by
    intro h
    have hl := jsSlice_length doc sel.startOffset sel.endOffset h1 (le_of_lt h2) h3
    rw [h4, h] at hl
    simp at hl
    omega
  have hprim : findByPrimaryPosition doc (calculatePosition sel)
      = some ⟨sel.startOffset, sel.endOffset, sel.selectedText, some 1⟩ :=
    findByPrimaryPosition_of_exact doc (calculatePosition sel) h1 h3 h2 h4
  have hval : validatePosition ⟨sel.startOffset, sel.endOffset, sel.selectedText, some 1⟩
      (calculatePosition sel) = true :=
    validate_self (calculatePosition sel) _ rfl hne
  have hconf : calculateMatchConfidence
      ⟨sel.startOffset, sel.endOffset, sel.selectedText, some 1⟩
      (calculatePosition sel) = 49 / 50 :=
    conf_self (calculatePosition sel) _ rfl rfl rfl hne
  have hatt : attempt doc (calculatePosition sel) .primary_position
      = some (⟨sel.startOffset, sel.endOffset, sel.selectedText, some 1⟩, 49 / 50) := by
    simp only [attempt, stratFun, hprim, hval, hconf, if_true]
  have hhit : hitB doc (calculatePosition sel) (7 / 10) .primary_position = true := by
    simp only [hitB, hatt]
    rw [decide_eq_true_eq]
    norm_num
  have hd : strategyOrder.dropWhile
      (fun x => ! hitB doc (calculatePosition sel) (7 / 10) x)
      = .primary_position :: [.context_match, .text_fingerprint, .structural_path, .fuzzy_match] := by
    show List.dropWhile _ (PositioningMethod.primary_position
      :: [PositioningMethod.context_match, PositioningMethod.text_fingerprint,
          PositioningMethod.structural_path, PositioningMethod.fuzzy_match]) = _
    rw [List.dropWhile_cons_of_neg (by simp [hhit])]
  have hrun := runStrategies_hit doc (calculatePosition sel) (7 / 10) strategyOrder [] []
    .primary_position [.context_match, .text_fingerprint, .structural_path, .fuzzy_match]
    hd ⟨sel.startOffset, sel.endOffset, sel.selectedText, some 1⟩ (49 / 50) hatt
  have htw : strategyOrder.takeWhile
      (fun x => ! hitB doc (calculatePosition sel) (7 / 10) x) = [] := by
    show List.takeWhile _ (PositioningMethod.primary_position
      :: [PositioningMethod.context_match, PositioningMethod.text_fingerprint,
          PositioningMethod.structural_path, PositioningMethod.fuzzy_match]) = _
    rw [List.takeWhile_cons_of_neg (by simp [hhit])]
  rw [htw] at hrun
  have hres : findAnnotationPosition doc (calculatePosition sel) (7 / 10)
      = ⟨true, some (updatePosition (calculatePosition sel)
            ⟨sel.startOffset, sel.endOffset, sel.selectedText, some 1⟩),
          [⟨⟨sel.startOffset, sel.endOffset, sel.selectedText, some 1⟩, 49 / 50,
            .primary_position⟩], [],
          ⟨1, [.primary_position], 49 / 50⟩⟩ := by
    rw [findAnnotationPosition, hrun]
    simp
  rw [hres]
  refine ⟨rfl, by simp, rfl, rfl, ?_⟩
  simp only [updatePosition, jsOrRat, Option.map_some]
  norm_num

/-- C2 counterexample: on the specification's own round-trip example the
result succeeds via `primary_position`, but the reported confidence (in
the result metadata and in the returned match) is 49/50 = 0.98, not 1.0
as the claim states. -/
theorem claim_C2_counterexample :
    (findAnnotationPosition rtDoc rtLocator (7 / 10)).success = true
    ∧ (findAnnotationPosition rtDoc rtLocator (7 / 10)).matchList.map
        (fun m => m.method) = [.primary_position]
    ∧ (findAnnotationPosition rtDoc rtLocator (7 / 10)).metadata.confidence = 49 / 50
    ∧ ¬ ((findAnnotationPosition rtDoc rtLocator (7 / 10)).metadata.confidence = 1)
    ∧ (findAnnotationPosition rtDoc rtLocator (7 / 10)).matchList.map
        (fun m => m.confidence) = [49 / 50] := by
  refine ⟨by with_unfolding_all rfl, by with_unfolding_all rfl,
    by with_unfolding_all rfl, ?_, by with_unfolding_all rfl⟩
  rw [show (findAnnotationPosition rtDoc rtLocator (7 / 10)).metadata.confidence
      = 49 / 50 from by with_unfolding_all rfl]
  norm_num

/-- Witness for C2: the round-trip selection satisfies the validity
hypotheses and the amended conclusion holds on it. -/
theorem claim_C2_witness :
    jsSlice rtDoc rtSelection.startOffset rtSelection.endOffset = rtSelection.selectedText
    ∧ (findAnnotationPosition rtDoc (calculatePosition rtSelection) (7 / 10)).success = true := by
  refine ⟨by with_unfolding_all rfl, ?_⟩
  exact (claim_C2_amended rtDoc rtSelection (by decide) (by decide)
    (by with_unfolding_all decide) (by with_unfolding_all rfl)).1

theorem validate_orig_ne (r : TextRange) (pos : AnnotationPosition)
    (h : validatePosition r pos = true) : pos.primary.selectedText.length ≠ 0 := by
  intro h0
  simp only [validatePosition] at h
  by_cases he : r.text.isEmpty
  · rw [if_pos he] at h
    exact absurd h (by simp)
  · rw [if_neg he, h0] at h
    norm_num at h

/-- C6.  For every validated candidate the recomputed confidence is the
weighted blend 0.4 text similarity + 0.3 position accuracy + 0.2 length
consistency + 0.1 of the constant 0.8 context term, capped at 1, with
position accuracy the average of the start and end accuracies
max(0, 1 - diff / max(0.1 span, 10)) and length consistency the min/max
quotient of the text lengths. -/
theorem claim_C6 (r : TextRange) (pos : AnnotationPosition)
    (h : validatePosition r pos = true) :
    calculateMatchConfidence r pos =
      min (calculateTextSimilarityPS r.text pos.primary.selectedText * (2 / 5)
        + ((max 0 (1 - ((r.startOffset - pos.primary.startOffset).natAbs : Rat)
              / max (((pos.primary.endOffset - pos.primary.startOffset : Int) : Rat) * (1 / 10)) 10)
            + max 0 (1 - ((r.endOffset - pos.primary.endOffset).natAbs : Rat)
              / max (((pos.primary.endOffset - pos.primary.startOffset : Int) : Rat) * (1 / 10)) 10)) / 2) * (3 / 10)
        + (((min r.text.length pos.primary.selectedText.length : Nat) : Rat)
            / ((max r.text.length pos.primary.selectedText.length : Nat) : Rat)) * (1 / 5)
        + (4 / 5) * (1 / 10)) 1 := by
  have hne := validate_orig_ne r pos h
  simp only [calculateMatchConfidence, calculatePositionAccuracy,
    calculateLengthConsistency, calculateContextMatch]
  rw [if_neg hne]

/-- Witness for C6: a concrete validated candidate of the round-trip
locator satisfies the blend formula. -/
theorem claim_C6_witness :
    validatePosition ⟨4, 6, "規定".toList, some 1⟩ rtLocator = true
    ∧ calculateMatchConfidence ⟨4, 6, "規定".toList, some 1⟩ rtLocator =
      min (calculateTextSimilarityPS (TextRange.text ⟨4, 6, "規定".toList, some 1⟩)
            rtLocator.primary.selectedText * (2 / 5)
        + ((max 0 (1 - ((TextRange.startOffset ⟨4, 6, "規定".toList, some 1⟩
                - rtLocator.primary.startOffset).natAbs : Rat)
              / max (((rtLocator.primary.endOffset - rtLocator.primary.startOffset : Int) : Rat) * (1 / 10)) 10)
            + max 0 (1 - ((TextRange.endOffset ⟨4, 6, "規定".toList, some 1⟩
                - rtLocator.primary.endOffset).natAbs : Rat)
              / max (((rtLocator.primary.endOffset - rtLocator.primary.startOffset : Int) : Rat) * (1 / 10)) 10)) / 2) * (3 / 10)
        + (((min (TextRange.text ⟨4, 6, "規定".toList, some 1⟩).length
              rtLocator.primary.selectedText.length : Nat) : Rat)
            / ((max (TextRange.text ⟨4, 6, "規定".toList, some 1⟩).length
              rtLocator.primary.selectedText.length : Nat) : Rat)) * (1 / 5)
        + (4 / 5) * (1 / 10)) 1 :=
  ⟨by with_unfolding_all rfl, claim_C6 _ _ (by with_unfolding_all rfl)⟩

/-- C9.  Whenever the cascade returns success, the returned locator is the
input locator with only the primary block and the metadata confidence
replaced: context, fingerprint, structural, creation time and text length
are carried over unchanged. -/
theorem claim_C9 (doc : Str) (pos : AnnotationPosition) (mc : Rat)
    (h : (findAnnotationPosition doc pos mc).success = true) :
    ∃ p, (findAnnotationPosition doc pos mc).position = some p
      ∧ p.context = pos.context ∧ p.fingerprint = pos.fingerprint
      ∧ p.structural = pos.structural
      ∧ p.metadata.createdAt = pos.metadata.createdAt
      ∧ p.metadata.textLength = pos.metadata.textLength := by
  cases hd : strategyOrder.dropWhile (fun x => ! hitB doc pos mc x) with
  | cons m rest =>
    have hm : hitB doc pos mc m = true := by
      have hh := List.head?_dropWhile_not (fun x => ! hitB doc pos mc x) strategyOrder
      rw [hd] at hh
      simp at hh
      exact hh
    obtain ⟨r, c, hatt⟩ := attempt_of_hit doc pos mc m hm
    have hrun := runStrategies_hit doc pos mc strategyOrder [] [] m rest hd r c hatt
    refine ⟨updatePosition pos r, ?_, rfl, rfl, rfl, rfl, rfl⟩
    rw [findAnnotationPosition, hrun]
  | nil =>
    have hrun := runStrategies_miss doc pos mc strategyOrder [] [] hd
    rw [findAnnotationPosition, hrun] at h ⊢
    simp only [List.nil_append] at h ⊢
    cases hv : validList doc pos strategyOrder with
    | nil =>
      rw [hv] at h
      simp [finishCascade] at h
    | cons m0 rest2 =>
      rw [hv] at h
      simp only [finishCascade] at h ⊢
      by_cases hb : (1 / 2 : Rat) ≤ (rest2.foldl pickBetter m0).confidence
      · refine ⟨updatePosition pos (rest2.foldl pickBetter m0).range, ?_, rfl, rfl, rfl, rfl, rfl⟩
        rw [if_pos hb]
      · rw [if_neg hb] at h
        simp at h

/-- Witness for C9: on the drift example the success result carries the
input locator's context, fingerprint and structural data unchanged. -/
theorem claim_C9_witness :
    (findAnnotationPosition driftDoc rtLocator (7 / 10)).success = true
    ∧ ∃ p, (findAnnotationPosition driftDoc rtLocator (7 / 10)).position = some p
      ∧ p.context = rtLocator.context ∧ p.fingerprint = rtLocator.fingerprint
      ∧ p.structural = rtLocator.structural
      ∧ p.metadata.createdAt = rtLocator.metadata.createdAt
      ∧ p.metadata.textLength = rtLocator.metadata.textLength :=
  ⟨by with_unfolding_all rfl,
   claim_C9 driftDoc rtLocator (7 / 10) (by with_unfolding_all rfl)⟩

theorem toNat_ofNatAux (n : Nat) (h : n.isValidChar) : (Char.ofNatAux n h).toNat = n := rfl

theorem toNat_ofNat_valid (n : Nat) (h : n.isValidChar) : (Char.ofNat n).toNat = n := by
  rw [Char.ofNat, dif_pos h]
  rfl

theorem toNat_toLower (c : Char) :
    (Char.toLower c).toNat
      = if 65 ≤ c.toNat ∧ c.toNat ≤ 90 then c.toNat + 32 else c.toNat := by
  unfold Char.toLower
  split
  case isTrue h =>
    rw [if_pos h]
    have hv : (c.toNat + 32).isValidChar := Or.inl (by omega)
    exact toNat_ofNat_valid _ hv
  case isFalse h => rw [if_neg h]

theorem wordCJK_not_ws (c : Char) (h : (isWordChar c || isCJKChar c) = true) :
    jsIsWs c = false := by
  simp only [isWordChar, isCJKChar, Bool.or_eq_true, Bool.and_eq_true,
    decide_eq_true_eq] at h
  simp only [jsIsWs, Bool.or_eq_false_iff, Bool.and_eq_false_iff,
    decide_eq_false_iff_not]
  omega

theorem toLower_word_cjk (c : Char) (h : (isWordChar c || isCJKChar c) = true) :
    (isWordChar c.toLower || isCJKChar c.toLower) = true := by
  simp only [isWordChar, isCJKChar, Bool.or_eq_true, Bool.and_eq_true,
    decide_eq_true_eq] at h ⊢
  rw [toNat_toLower]
  split <;> omega

theorem mem_jsTrim (c : Char) (s : Str) (h : c ∈ jsTrim s) : c ∈ s := by
  simp only [jsTrim] at h
  rw [List.mem_reverse] at h
  have h1 := (List.dropWhile_sublist (l := (s.dropWhile jsIsWs).reverse) jsIsWs).mem h
  rw [List.mem_reverse] at h1
  exact (List.dropWhile_sublist jsIsWs).mem h1

theorem normalizePS_noWs (t : Str) (c : Char) (h : c ∈ normalizeTextPS t) :
    jsIsWs c = false := by
  have h1 := mem_jsTrim c _ h
  obtain ⟨a, ha, rfl⟩ := List.mem_map.mp h1
  have hp := (List.mem_filter.mp ha).2
  exact wordCJK_not_ws _ (toLower_word_cjk a hp)

theorem splitWsGo_noWs (s : Str) (hs : ∀ c ∈ s, jsIsWs c = false) :
    ∀ cur b, splitWsGo s cur b = [cur.reverse ++ s] := by
  induction s with
  | nil => intro cur b; simp [splitWsGo]
  | cons c rest ih =>
    intro cur b
    have hc : jsIsWs c = false := hs c (List.mem_cons_self c rest)
    simp only [splitWsGo, hc, Bool.false_eq_true, if_false]
    rw [ih (fun x hx => hs x (List.mem_cons_of_mem c hx)) (c :: cur) false]
    simp

theorem jsSplitWs_noWs (s : Str) (hs : ∀ c ∈ s, jsIsWs c = false) :
    jsSplitWs s = [s] := by
  rw [jsSplitWs, splitWsGo_noWs s hs [] false]
  simp

theorem tokenSet_single (x : Str) : tokenSet [x] = [x] := by
  simp [tokenSet]

theorem simPS_trichotomy (t1 t2 : Str) :
    calculateTextSimilarityPS t1 t2 = 1 ∨ calculateTextSimilarityPS t1 t2 = 19 / 20
    ∨ calculateTextSimilarityPS t1 t2 = 0 := by
  unfold calculateTextSimilarityPS
  by_cases h1 : t1 = t2
  · rw [if_pos h1]; exact Or.inl rfl
  · rw [if_neg h1]
    by_cases h2 : normalizeTextPS t1 = normalizeTextPS t2
    · rw [if_pos h2]; exact Or.inr (Or.inl rfl)
    · rw [if_neg h2]
      refine Or.inr (Or.inr ?_)
      rw [jsSplitWs_noWs _ (normalizePS_noWs t1), jsSplitWs_noWs _ (normalizePS_noWs t2),
        tokenSet_single, tokenSet_single]
      have hint : interCount [normalizeTextPS t1] [normalizeTextPS t2] = 0 := by
        simp [interCount, List.contains_cons, h2]
      simp only []
      rw [hint]
      simp

theorem validate_elim (r : TextRange) (pos : AnnotationPosition)
    (h : validatePosition r pos = true) :
    r.text ≠ []
    ∧ (1 / 2 : Rat) ≤ (r.text.length : Rat) / (pos.primary.selectedText.length : Rat)
    ∧ ((r.text.length : Rat) / (pos.primary.selectedText.length : Rat)) ≤ 2
    ∧ (3 / 5 : Rat) ≤ calculateTextSimilarityPS r.text pos.primary.selectedText := by
  simp only [validatePosition] at h
  by_cases he : r.text.isEmpty
  · rw [if_pos he] at h; exact absurd h (by simp)
  · rw [if_neg he] at h
    have hne : r.text ≠ [] := by
      intro hx; exact he (by simp [hx])
    by_cases hq : ((r.text.length : Rat) / (pos.primary.selectedText.length : Rat) < 1 / 2
        || 2 < (r.text.length : Rat) / (pos.primary.selectedText.length : Rat)) = true
    · rw [if_pos hq] at h; exact absurd h (by simp)
    · rw [if_neg hq] at h
      simp only [Bool.or_eq_true, decide_eq_true_eq, not_or] at hq
      exact ⟨hne, le_of_not_lt hq.1, le_of_not_lt hq.2, by simpa using h⟩

theorem conf_lower (r : TextRange) (pos : AnnotationPosition)
    (h : validatePosition r pos = true) :
    (14 / 25 : Rat) ≤ calculateMatchConfidence r pos := by
  obtain ⟨hne, hq1, hq2, hsim⟩ := validate_elim r pos h
  have horig := validate_orig_ne r pos h
  have hsim' : (19 / 20 : Rat) ≤ calculateTextSimilarityPS r.text pos.primary.selectedText := by
    rcases simPS_trichotomy r.text pos.primary.selectedText with hs | hs | hs
    · rw [hs]; norm_num
    · rw [hs]
    · rw [hs] at hsim; norm_num at hsim
  have hcl : r.text.length ≠ 0 := fun hx => hne (List.eq_nil_of_length_eq_zero hx)
  have hclR : (0 : Rat) < (r.text.length : Rat) := by
    have := Nat.pos_of_ne_zero hcl
    exact_mod_cast this
  have holR : (0 : Rat) < (pos.primary.selectedText.length : Rat) := by
    have := Nat.pos_of_ne_zero horig
    exact_mod_cast this
  have hlen : (1 / 2 : Rat) ≤ calculateLengthConsistency r pos := by
    simp only [calculateLengthConsistency]
    rw [if_neg horig]
    rcases le_total r.text.length pos.primary.selectedText.length with hle | hle
    · rw [min_eq_left hle, max_eq_right hle]
      exact hq1
    · rw [min_eq_right hle, max_eq_left hle]
      rw [le_div_iff₀ hclR]
      have h2' : (r.text.length : Rat) ≤ 2 * (pos.primary.selectedText.length : Rat) := by
        rw [div_le_iff₀ holR] at hq2
        linarith
      linarith
  have hpos : (0 : Rat) ≤ calculatePositionAccuracy r pos := by
    simp only [calculatePositionAccuracy]
    have h1 : (0 : Rat) ≤ max 0 (1 - ((r.startOffset - pos.primary.startOffset).natAbs : Rat)
        / max (((pos.primary.endOffset - pos.primary.startOffset : Int) : Rat) * (1 / 10)) 10) :=
      le_max_left 0 _
    have h2 : (0 : Rat) ≤ max 0 (1 - ((r.endOffset - pos.primary.endOffset).natAbs : Rat)
        / max (((pos.primary.endOffset - pos.primary.startOffset : Int) : Rat) * (1 / 10)) 10) :=
      le_max_left 0 _
    linarith
  simp only [calculateMatchConfidence, calculateContextMatch]
  apply le_min _ (by norm_num)
  nlinarith [hsim', hlen, hpos]

theorem foldl_pickBetter_mem (m0 : AnnotationMatch) (l : List AnnotationMatch) :
    l.foldl pickBetter m0 ∈ m0 :: l := by
  induction l generalizing m0 with
  | nil => simp
  | cons a t ih =>
    simp only [List.foldl_cons]
    rcases (List.mem_cons).mp (ih (pickBetter m0 a)) with h | h
    · rw [h]
      unfold pickBetter
      split
      · simp
      · simp
    · simp [h]

theorem foldl_pickBetter_ge (m0 : AnnotationMatch) (l : List AnnotationMatch) :
    ∀ x ∈ m0 :: l, x.confidence ≤ (l.foldl pickBetter m0).confidence := by
  induction l generalizing m0 with
  | nil => intro x hx; simp at hx; rw [hx]; simp
  | cons a t ih =>
    intro x hx
    simp only [List.foldl_cons]
    have hkey : m0.confidence ≤ (pickBetter m0 a).confidence
        ∧ a.confidence ≤ (pickBetter m0 a).confidence := by
      unfold pickBetter
      split
      case isTrue h => exact ⟨le_of_lt h, le_refl _⟩
      case isFalse h => exact ⟨le_refl _, le_of_not_lt h⟩
    rcases (List.mem_cons).mp hx with h | h
    · rw [h]
      exact le_trans hkey.1 (ih (pickBetter m0 a) _ (List.mem_cons_self _ _))
    · rcases (List.mem_cons).mp h with h2 | h2
      · rw [h2]
        exact le_trans hkey.2 (ih (pickBetter m0 a) _ (List.mem_cons_self _ _))
      · exact ih (pickBetter m0 a) x (List.mem_cons_of_mem _ h2)

theorem validList_mem_elim (doc : Str) (pos : AnnotationPosition)
    (L : List PositioningMethod) (m : AnnotationMatch) (hm : m ∈ validList doc pos L) :
    validatePosition m.range pos = true
    ∧ m.confidence = calculateMatchConfidence m.range pos := by
  simp only [validList, List.mem_filterMap] at hm
  obtain ⟨meth, _, hsome⟩ := hm
  rw [attemptMatch, Option.map_eq_some'] at hsome
  obtain ⟨rc, hrc, hm'⟩ := hsome
  unfold attempt at hrc
  split at hrc
  · exact absurd hrc (by simp)
  next r hS =>
    split at hrc
    next hval =>
      injection hrc with hrc'
      rw [← hm', ← hrc']
      exact ⟨hval, rfl⟩
    next => exact absurd hrc (by simp)

theorem validList_conf_ge (doc : Str) (pos : AnnotationPosition)
    (L : List PositioningMethod) (m : AnnotationMatch) (hm : m ∈ validList doc pos L) :
    (14 / 25 : Rat) ≤ m.confidence := by
  obtain ⟨hv, hc⟩ := validList_mem_elim doc pos L m hm
  rw [hc]
  exact conf_lower m.range pos hv

theorem hit_mem_validList (doc : Str) (pos : AnnotationPosition) (mc : Rat)
    (m : PositioningMethod) (hm : m ∈ strategyOrder) (hh : hitB doc pos mc m = true) :
    ∃ x ∈ validList doc pos strategyOrder, mc ≤ x.confidence := by
  obtain ⟨r, c, hatt⟩ := attempt_of_hit doc pos mc m hh
  have hc : mc ≤ c := by
    rw [hitB_eq_true doc pos mc m r c hatt] at hh
    exact of_decide_eq_true hh
  refine ⟨⟨r, c, m⟩, ?_, hc⟩
  simp only [validList, List.mem_filterMap]
  exact ⟨m, hm, by simp [attemptMatch, hatt]⟩

/-- The fallback description of a terminating cascade run: with no
validated candidate at 0.5 the run ends in the failure result with
confidence 0 and all five strategies recorded; with a candidate at 0.5 but
none at the threshold it ends in success with the highest-confidence
candidate. -/
theorem runCascade_fallback (doc : Str) (pos : AnnotationPosition) (mc : Rat) :
    ((∀ m ∈ validList doc pos strategyOrder, m.confidence < 1 / 2) →
      (findAnnotationPosition doc pos mc).success = false
      ∧ (findAnnotationPosition doc pos mc).metadata.confidence = 0
      ∧ (findAnnotationPosition doc pos mc).errors = []
      ∧ (findAnnotationPosition doc pos mc).metadata.strategiesUsed = strategyOrder
      ∧ 1 ≤ (findAnnotationPosition doc pos mc).metadata.strategiesUsed.length)
  ∧ ((∃ m ∈ validList doc pos strategyOrder, (1 / 2 : Rat) ≤ m.confidence) →
     (∀ m ∈ validList doc pos strategyOrder, m.confidence < mc) →
      (findAnnotationPosition doc pos mc).success = true
      ∧ ∃ best ∈ validList doc pos strategyOrder,
          (∀ m ∈ validList doc pos strategyOrder, m.confidence ≤ best.confidence)
          ∧ (findAnnotationPosition doc pos mc).metadata.confidence = best.confidence
          ∧ (findAnnotationPosition doc pos mc).position
              = some (updatePosition pos best.range)
          ∧ (findAnnotationPosition doc pos mc).matchList
              = validList doc pos strategyOrder) := by
  constructor
  · intro hlow
    have hemp : validList doc pos strategyOrder = [] := by
      cases hv : validList doc pos strategyOrder with
      | nil => rfl
      | cons x t =>
        have hx : x ∈ validList doc pos strategyOrder := by rw [hv]; simp
        have h1 := validList_conf_ge doc pos strategyOrder x hx
        have h2 := hlow x hx
        norm_num at h1 h2
        linarith
    have hd : strategyOrder.dropWhile (fun x => ! hitB doc pos mc x) = [] := by
      rw [List.dropWhile_eq_nil_iff]
      intro x hx
      by_contra hhit
      simp at hhit
      obtain ⟨y, hy, _⟩ := hit_mem_validList doc pos mc x hx hhit
      rw [hemp] at hy
      exact absurd hy (by simp)
    have hrun := runStrategies_miss doc pos mc strategyOrder [] [] hd
    have hres : findAnnotationPosition doc pos mc
        = finishCascade pos (validList doc pos strategyOrder) strategyOrder := by
      rw [findAnnotationPosition, hrun, List.nil_append, List.nil_append]
    rw [hres, hemp]
    simp [finishCascade, strategyOrder]
  · intro hex hallmc
    have hd : strategyOrder.dropWhile (fun x => ! hitB doc pos mc x) = [] := by
      rw [List.dropWhile_eq_nil_iff]
      intro x hx
      by_contra hhit
      simp at hhit
      obtain ⟨y, hy, hyc⟩ := hit_mem_validList doc pos mc x hx hhit
      exact absurd hyc (not_le.mpr (hallmc y hy))
    have hrun := runStrategies_miss doc pos mc strategyOrder [] [] hd
    have hres : findAnnotationPosition doc pos mc
        = finishCascade pos (validList doc pos strategyOrder) strategyOrder := by
      rw [findAnnotationPosition, hrun, List.nil_append, List.nil_append]
    obtain ⟨x0, hx0, hx0c⟩ := hex
    cases hv : validList doc pos strategyOrder with
    | nil =>
      rw [hv] at hx0
      exact absurd hx0 (by simp)
    | cons m0 rest =>
      have hbhalf : (1 / 2 : Rat) ≤ (rest.foldl pickBetter m0).confidence := by
        refine le_trans hx0c ?_
        have := foldl_pickBetter_ge m0 rest x0 (by rw [← hv]; exact hx0)
        exact this
      rw [hres, hv]
      simp only [finishCascade]
      rw [if_pos hbhalf]
      exact ⟨rfl, rest.foldl pickBetter m0, foldl_pickBetter_mem m0 rest,
        foldl_pickBetter_ge m0 rest, rfl, rfl, rfl⟩

theorem attempt_withHash (doc : Str) (pos : AnnotationPosition) (h : Str)
    (m : PositioningMethod) : attempt doc (withContextHash pos h) m = attempt doc pos m := by
  cases m <;> rfl

theorem hitB_withHash (doc : Str) (pos : AnnotationPosition) (mc : Rat) (h : Str)
    (m : PositioningMethod) : hitB doc (withContextHash pos h) mc m = hitB doc pos mc m := by
  unfold hitB
  rw [attempt_withHash]

theorem attemptMatch_withHash (doc : Str) (pos : AnnotationPosition) (h : Str) :
    attemptMatch doc (withContextHash pos h) = attemptMatch doc pos := by
  funext m
  unfold attemptMatch
  rw [attempt_withHash]

theorem validList_withHash (doc : Str) (pos : AnnotationPosition) (h : Str)
    (L : List PositioningMethod) :
    validList doc (withContextHash pos h) L = validList doc pos L := by
  unfold validList
  rw [attemptMatch_withHash]

theorem hitPred_withHash (doc : Str) (pos : AnnotationPosition) (mc : Rat) (h : Str) :
    (fun x => ! hitB doc (withContextHash pos h) mc x) = (fun x => ! hitB doc pos mc x) := by
  funext x
  rw [hitB_withHash]

theorem finishCascade_compare (p q : AnnotationPosition) (ms : List AnnotationMatch)
    (used : List PositioningMethod) :
    (finishCascade p ms used).success = (finishCascade q ms used).success
    ∧ (finishCascade p ms used).matchList = (finishCascade q ms used).matchList
    ∧ (finishCascade p ms used).errors = (finishCascade q ms used).errors
    ∧ (finishCascade p ms used).metadata = (finishCascade q ms used).metadata
    ∧ (finishCascade p ms used).position.map (fun x => x.primary)
        = (finishCascade q ms used).position.map (fun x => x.primary)
    ∧ (finishCascade p ms used).position.map (fun x => x.metadata.confidence)
        = (finishCascade q ms used).position.map (fun x => x.metadata.confidence) := by
  cases ms with
  | nil => exact ⟨rfl, rfl, rfl, rfl, rfl, rfl⟩
  | cons m0 rest =>
    simp only [finishCascade]
    split
    · exact ⟨rfl, rfl, rfl, rfl, rfl, rfl⟩
    · exact ⟨rfl, rfl, rfl, rfl, rfl, rfl⟩

/-- C10.  Changing only the stored `context.hash` of a locator changes
nothing observable about resolution: success flag, matches (ranges,
confidences and methods), errors, result metadata, and the resolved
primary block and updated confidence of the returned position all agree
(no strategy reads the hash; the context pattern uses only `before` and
`after`). -/
theorem claim_C10 (doc : Str) (pos : AnnotationPosition) (mc : Rat) (h1 h2 : Str) :
    (findAnnotationPosition doc (withContextHash pos h1) mc).success
      = (findAnnotationPosition doc (withContextHash pos h2) mc).success
  ∧ (findAnnotationPosition doc (withContextHash pos h1) mc).matchList
      = (findAnnotationPosition doc (withContextHash pos h2) mc).matchList
  ∧ (findAnnotationPosition doc (withContextHash pos h1) mc).errors
      = (findAnnotationPosition doc (withContextHash pos h2) mc).errors
  ∧ (findAnnotationPosition doc (withContextHash pos h1) mc).metadata
      = (findAnnotationPosition doc (withContextHash pos h2) mc).metadata
  ∧ (findAnnotationPosition doc (withContextHash pos h1) mc).position.map
        (fun x => x.primary)
      = (findAnnotationPosition doc (withContextHash pos h2) mc).position.map
        (fun x => x.primary)
  ∧ (findAnnotationPosition doc (withContextHash pos h1) mc).position.map
        (fun x => x.metadata.confidence)
      = (findAnnotationPosition doc (withContextHash pos h2) mc).position.map
        (fun x => x.metadata.confidence) := by
  cases hd : strategyOrder.dropWhile (fun x => ! hitB doc pos mc x) with
  | cons m rest =>
    have hm : hitB doc pos mc m = true := by
      have hh := List.head?_dropWhile_not (fun x => ! hitB doc pos mc x) strategyOrder
      rw [hd] at hh
      simp at hh
      exact hh
    obtain ⟨r, c, hatt⟩ := attempt_of_hit doc pos mc m hm
    have hrun1 := runStrategies_hit doc (withContextHash pos h1) mc strategyOrder [] [] m rest
      (by rw [hitPred_withHash]; exact hd) r c (by rw [attempt_withHash]; exact hatt)
    have hrun2 := runStrategies_hit doc (withContextHash pos h2) mc strategyOrder [] [] m rest
      (by rw [hitPred_withHash]; exact hd) r c (by rw [attempt_withHash]; exact hatt)
    rw [findAnnotationPosition, hrun1] at *
    rw [findAnnotationPosition, hrun2]
    rw [hitPred_withHash, hitPred_withHash]
    exact ⟨rfl, rfl, rfl, rfl, rfl, rfl⟩
  | nil =>
    have hrun1 := runStrategies_miss doc (withContextHash pos h1) mc strategyOrder [] []
      (by rw [hitPred_withHash]; exact hd)
    have hrun2 := runStrategies_miss doc (withContextHash pos h2) mc strategyOrder [] []
      (by rw [hitPred_withHash]; exact hd)
    rw [findAnnotationPosition, hrun1, findAnnotationPosition, hrun2,
      List.nil_append, List.nil_append, validList_withHash, validList_withHash]
    exact finishCascade_compare (withContextHash pos h1) (withContextHash pos h2)
      (validList doc pos strategyOrder) strategyOrder

/-- C8.  Drift example: after inserting ten unrelated characters before
offset 0, resolution of the round-trip locator still succeeds — the
validated candidates come from `context_match` and `fuzzy_match` (the
best, used for the update, is the context match) — and the updated
primary block points at the new offset 14 with the selected text
recovered. -/
theorem claim_C8 :
    (findAnnotationPosition driftDoc rtLocator (7 / 10)).success = true
    ∧ (findAnnotationPosition driftDoc rtLocator (7 / 10)).matchList.map
        (fun m => m.method) = [.context_match, .fuzzy_match]
    ∧ (findAnnotationPosition driftDoc rtLocator (7 / 10)).metadata.confidence = 17 / 25
    ∧ (findAnnotationPosition driftDoc rtLocator (7 / 10)).position.map
        (fun p => p.primary.startOffset) = some 14
    ∧ (findAnnotationPosition driftDoc rtLocator (7 / 10)).position.map
        (fun p => p.primary.selectedText) = some ("規定".toList)
    ∧ (findAnnotationPosition driftDoc rtLocator (7 / 10)).metadata.strategiesUsed
        = strategyOrder := by
  refine ⟨?_, ?_, ?_, ?_, ?_, ?_⟩ <;> with_unfolding_all rfl

/-- C7 counterexample: a locator with `paragraphIndex = 0` and no element
path has its paragraph index set, and the claimed window search would find
the text with confidence 0.8, yet the orchestrator's truthiness guard
skips the strategy and returns null. -/
theorem claim_C7_counterexample :
    bucketZeroPos.structural.paragraphIndex = some 0
    ∧ bucketZeroPos.structural.elementPath = none
    ∧ structuralDescribedClaim rtDoc bucketZeroPos
        = some ⟨4, 6, "規定".toList, some (4 / 5)⟩
    ∧ findByStructuralPathStrategy rtDoc bucketZeroPos = none
    ∧ structuralDescribedClaim rtDoc bucketZeroPos
        ≠ findByStructuralPathStrategy rtDoc bucketZeroPos := by
  refine ⟨rfl, rfl, by with_unfolding_all rfl, by with_unfolding_all rfl, ?_⟩
  rw [show findByStructuralPathStrategy rtDoc bucketZeroPos = none from by
    with_unfolding_all rfl]
  rw [show structuralDescribedClaim rtDoc bucketZeroPos
      = some ⟨4, 6, "規定".toList, some (4 / 5)⟩ from by with_unfolding_all rfl]
  simp

/-- C7 (amended).  The structural strategy is skipped exactly when
`elementPath` is absent or empty and `paragraphIndex` is absent or zero
(JS truthiness); when run with `paragraphIndex` present it searches the
clamped bucket window for the stored text with fixed confidence 0.8, when
only a non-empty `elementPath` is present it searches the whole document
with confidence 0.9, and otherwise it returns null. -/
theorem claim_C7_amended (doc : Str) (pos : AnnotationPosition) :
    findByStructuralPathStrategy doc pos = structuralDescribedAmended doc pos := by
  unfold findByStructuralPathStrategy structuralDescribedAmended
    structuralFindByStructuralPath findByParagraphIndex findByElementPath
  cases hep : pos.structural.elementPath with
  | none =>
    cases hpi : pos.structural.paragraphIndex with
    | none => simp [jsTruthyStr, jsTruthyInt]
    | some k =>
      by_cases hk : k = 0
      · subst hk
        simp [jsTruthyStr, jsTruthyInt]
      · simp [jsTruthyStr, jsTruthyInt, hk]
  | some p =>
    cases hpi : pos.structural.paragraphIndex with
    | none =>
      by_cases hp : p = []
      · subst hp
        simp [jsTruthyStr, jsTruthyInt]
      · simp [jsTruthyStr, jsTruthyInt, hp, List.isEmpty_iff]
    | some k =>
      by_cases hp : p = []
      · subst hp
        by_cases hk : k = 0
        · subst hk
          simp [jsTruthyStr, jsTruthyInt]
        · simp [jsTruthyStr, jsTruthyInt, hk]
      · by_cases hk : k = 0
        · subst hk
          simp [jsTruthyStr, jsTruthyInt, hp, List.isEmpty_iff]
        · simp [jsTruthyStr, jsTruthyInt, hp, hk, List.isEmpty_iff]

theorem fpWindowStep_pos (w : Nat) : 1 ≤ fpWindowStep w := le_max_left 1 (w / 4)

theorem progression_succ_head (i step c : Nat) :
    progression i step (c + 1) = i :: progression (i + step) step c := by
  simp only [progression, List.range_succ_eq_map, List.map_cons, Nat.zero_mul, Nat.add_zero,
    List.map_map]
  congr 1
  apply List.map_congr_left
  intro a _
  simp only [Function.comp_apply, Nat.succ_mul, Nat.succ_eq_add_one]
  omega

theorem countFrom_step (len w i : Nat) (h : i + w ≤ len) :
    countFrom len w i = countFrom len w (i + fpWindowStep w) + 1 := by
  have hstep := fpWindowStep_pos w
  by_cases h2 : i + fpWindowStep w + w ≤ len
  · rw [countFrom, if_pos h, countFrom, if_pos h2]
    have hx : fpWindowStep w ≤ len - w - i := by omega
    have : len - w - (i + fpWindowStep w) = (len - w - i) - fpWindowStep w := by omega
    rw [this]
    rw [Nat.div_eq_sub_div (by omega) hx]
  · rw [countFrom, if_pos h, countFrom, if_neg h2]
    have hlt : len - w - i < fpWindowStep w := by omega
    rw [Nat.div_eq_of_lt hlt]

theorem fpLoop_eq (doc target fp : Str) :
    ∀ (fuel i : Nat), doc.length + 1 ≤ fuel + i →
    fpLoop doc target fp fuel i =
      (progression i (fpWindowStep target.length)
          (countFrom doc.length target.length i)).findSome?
        (fun j =>
          let window := sliceN doc j (j + target.length)
          let sim := calculateTextSimilarityTMA target window
          if compareFingerprints fp (generateTextFingerprintTMA window) &&
             decide ((4 / 5 : Rat) < sim) then
            some ⟨(j : Int), ((j + target.length : Nat) : Int), window, some sim⟩
          else none) := by
  intro fuel
  induction fuel with
  | zero =>
    intro i h
    have hc : ¬ (i + target.length ≤ doc.length) := by omega
    rw [countFrom, if_neg hc]
    simp [fpLoop, progression]
  | succ fuel ih =>
    intro i h
    rw [countFrom]
    by_cases hc : i + target.length ≤ doc.length
    · rw [if_pos hc, progression_succ_head, List.findSome?_cons]
      by_cases hg : (compareFingerprints fp
            (generateTextFingerprintTMA (sliceN doc i (i + target.length))) &&
          decide ((4 / 5 : Rat)
            < calculateTextSimilarityTMA target (sliceN doc i (i + target.length)))) = true
      · simp only [fpLoop, if_pos hc, hg, if_true]
      · simp only [fpLoop, if_pos hc, hg, Bool.false_eq_true, if_false]
        have hcnt : (doc.length - target.length - i) / fpWindowStep target.length
            = countFrom doc.length target.length (i + fpWindowStep target.length) := by
          have hs := countFrom_step doc.length target.length i hc
          rw [countFrom, if_pos hc] at hs
          omega
        rw [hcnt]
        exact ih (i + fpWindowStep target.length)
          (by have := fpWindowStep_pos target.length; omega)
    · rw [if_neg hc]
      simp [fpLoop, hc, progression]

theorem fpWindowStarts_eq_progression (len w : Nat) :
    fpWindowStarts len w = progression 0 (fpWindowStep w) (countFrom len w 0) := by
  rw [fpWindowStarts, countFrom]
  by_cases hw : w ≤ len
  · rw [if_pos hw, if_pos (by omega)]
    simp [progression]
  · rw [if_neg hw, if_neg (by omega)]
    simp [progression]

/-- C5.  The fingerprint strategy equals its specification-level
description: slide a window of exactly the stored text's length in steps
of `max(1, windowLength/4)`; gate each window by Jaccard similarity of the
shingle sets of its trigram fingerprint and the stored fingerprint
exceeding 0.3; accept the first gated window whose text similarity to the
stored text exceeds 0.8, with confidence equal to that similarity;
otherwise null. -/
theorem claim_C5 (doc : Str) (pos : AnnotationPosition) :
    findByTextFingerprint doc pos = fingerprintSearchDescribed doc pos := by
  unfold findByTextFingerprint fingerprintSearchDescribed
  simp only [fpWindowStarts_eq_progression]
  exact fpLoop_eq doc pos.primary.selectedText pos.fingerprint (doc.length + 1) 0 (by omega)

/-! ## The non-terminating path of the context scan -/

theorem ciPrefix_length (pat s : Str) (h : ciPrefix pat s = true) : pat.length ≤ s.length := by
  induction pat generalizing s with
  | nil => simp
  | cons a as ih =>
    cases s with
    | nil => simp [ciPrefix] at h
    | cons b bs =>
      simp only [ciPrefix, Bool.and_eq_true] at h
      have := ih bs h.2
      simp only [List.length_cons]
      omega

theorem gapSearch_le (doc a : Str) (q : Nat) :
    ∀ g g', gapSearch doc a q g = some g' → g' ≤ g := by
  intro g
  induction g with
  | zero =>
    intro g' h
    simp only [gapSearch] at h
    split at h
    · injection h with h'; omega
    · exact absurd h (by simp)
  | succ g ih =>
    intro g' h
    simp only [gapSearch] at h
    split at h
    · injection h with h'; omega
    · have := ih g' h; omega

theorem gapSearch_some_after (doc a : Str) (q : Nat) :
    ∀ g g', gapSearch doc a q g = some g' → ciPrefix a (doc.drop (q + g')) = true := by
  intro g
  induction g with
  | zero =>
    intro g' h
    simp only [gapSearch] at h
    split at h
    next hp => injection h with h'; rw [← h']; exact hp
    next => exact absurd h (by simp)
  | succ g ih =>
    intro g' h
    simp only [gapSearch] at h
    split at h
    next hp => injection h with h'; rw [← h']; exact hp
    next => exact ih g' h

theorem gapSearch_nil_after (doc : Str) (q : Nat) :
    ∀ g, gapSearch doc [] q g = some g := by
  intro g
  cases g with
  | zero => simp [gapSearch, ciPrefix]
  | succ g => simp [gapSearch, ciPrefix]

theorem matchAt_nil_nil (doc : Str) (p : Nat) :
    matchAt doc [] [] p
      = some (p + min 200 ((doc.drop p).takeWhile (fun c => ! isLineTerm c)).length) := by
  simp [matchAt, ciPrefix, gapSearch_nil_after]

theorem matchAt_some_bounds (doc b a : Str) (p e : Nat) (hp : p ≤ doc.length)
    (h : matchAt doc b a p = some e) :
    p + b.length + a.length ≤ e ∧ e ≤ doc.length := by
  simp only [matchAt] at h
  split at h
  next hb =>
    rw [Option.map_eq_some'] at h
    obtain ⟨g, hg, he⟩ := h
    have hble : b.length ≤ doc.length - p := by
      have := ciPrefix_length b (doc.drop p) hb
      simpa using this
    have hgle := gapSearch_le doc a (p + b.length) _ g hg
    have hga := gapSearch_some_after doc a (p + b.length) _ g hg
    have hale : a.length ≤ doc.length - (p + b.length + g) := by
      have := ciPrefix_length a (doc.drop (p + b.length + g)) hga
      simpa using this
    have hmg : min 200 ((doc.drop (p + b.length)).takeWhile
        (fun c => ! isLineTerm c)).length ≤ doc.length - (p + b.length) := by
      have h1 : ((doc.drop (p + b.length)).takeWhile (fun c => ! isLineTerm c)).length
          ≤ (doc.drop (p + b.length)).length :=
        (List.takeWhile_sublist (fun c => ! isLineTerm c)).length_le
      simp only [List.length_drop] at h1
      omega
    omega
  next => exact absurd h (by simp)

theorem execFrom_some_elim (doc b a : Str) (l p e : Nat)
    (h : execFrom doc b a l = some (p, e)) :
    l ≤ p ∧ p ≤ doc.length ∧ matchAt doc b a p = some e := by
  obtain ⟨p', hmem, hf⟩ := List.exists_of_findSome?_eq_some h
  rw [Option.map_eq_some'] at hf
  obtain ⟨e', he', hpe⟩ := hf
  injection hpe with h1 h2
  have hmem' := List.mem_range'_1.mp hmem
  constructor
  · omega
  constructor
  · omega
  · rw [← h1, ← h2] at *
    rw [← h1] at he'
    exact he'

theorem execFrom_nil_nil (doc : Str) (l : Nat) (hl : l ≤ doc.length) :
    execFrom doc [] [] l
      = some (l, l + min 200 ((doc.drop l).takeWhile (fun c => ! isLineTerm c)).length) := by
  have hcount : doc.length + 1 - l = (doc.length - l) + 1 := by omega
  rw [execFrom, hcount, List.range'_succ]
  rw [List.findSome?_cons]
  rw [matchAt_nil_nil]
  rfl

theorem divergesGo_nil_nil (doc : Str) :
    ∀ (fuel l : Nat), l ≤ doc.length → doc.length + 1 ≤ fuel + l →
    findMatchesDivergesGo doc [] [] fuel l = true := by
  intro fuel
  induction fuel with
  | zero =>
    intro l hl hf
    omega
  | succ fuel ih =>
    intro l hl hf
    rw [findMatchesDivergesGo, execFrom_nil_nil doc l hl]
    have h1 : ((doc.drop l).takeWhile (fun c => ! isLineTerm c)).length
        ≤ doc.length - l := by
      have h2 := (List.takeWhile_sublist
        (l := doc.drop l) (fun c => ! isLineTerm c)).length_le
      simpa using h2
    show (if l + min 200 ((doc.drop l).takeWhile (fun c => ! isLineTerm c)).length = l
          then true
          else findMatchesDivergesGo doc [] [] fuel
            (l + min 200 ((doc.drop l).takeWhile (fun c => ! isLineTerm c)).length)) = true
    by_cases hz : min 200 ((doc.drop l).takeWhile (fun c => ! isLineTerm c)).length = 0
    · rw [if_pos (by omega)]
    · rw [if_neg (by omega)]
      have hGle : min 200 ((doc.drop l).takeWhile (fun c => ! isLineTerm c)).length
          ≤ doc.length - l := le_trans (min_le_right _ _) h1
      exact ih _ (by omega) (by omega)

theorem divergesGo_nonempty (doc before after : Str)
    (hba : before ≠ [] ∨ after ≠ []) :
    ∀ (fuel l : Nat), findMatchesDivergesGo doc before after fuel l = false := by
  intro fuel
  induction fuel with
  | zero => intro l; rfl
  | succ fuel ih =>
    intro l
    rw [findMatchesDivergesGo]
    cases hE : execFrom doc before after l with
    | none => rfl
    | some pe =>
      obtain ⟨p, e⟩ := pe
      obtain ⟨hlp, hpd, hma⟩ := execFrom_some_elim doc before after l p e hE
      have hbounds := matchAt_some_bounds doc before after p e hpd hma
      have hne : e ≠ p := by
        have hb1 : 1 ≤ before.length + after.length := by
          rcases hba with h | h
          · have := List.length_pos.mpr h
            omega
          · have := List.length_pos.mpr h
            omega
        omega
      show (if e = p then true else findMatchesDivergesGo doc before after fuel e) = false
      rw [if_neg hne]
      exact ih e

/-- The context scan loops forever exactly when both stored context
strings are empty: then the pattern eventually produces an empty match and
`exec` never advances `lastIndex`; with a non-empty context part every
match consumes at least one character. -/
theorem findMatchesDiverges_iff (doc before after : Str) :
    findMatchesDiverges doc before after = true ↔ before = [] ∧ after = [] := by
  constructor
  · intro h
    by_contra hba
    rw [not_and_or] at hba
    rw [findMatchesDiverges, divergesGo_nonempty doc before after hba] at h
    exact absurd h (by simp)
  · intro h
    rw [h.1, h.2, findMatchesDiverges]
    exact divergesGo_nil_nil doc (doc.length + 2) 0 (by omega) (by omega)

theorem execFrom_none_of_big (doc before after : Str) (l : Nat)
    (hl : doc.length + 1 ≤ l) : execFrom doc before after l = none := by
  rw [execFrom]
  have h0 : doc.length + 1 - l = 0 := by omega
  rw [h0]
  rfl

theorem findMatchesGo_nil_of_big (doc before after : Str) (fuel l : Nat)
    (hl : doc.length + 1 ≤ l) : findMatchesGo doc before after fuel l = [] := by
  cases fuel with
  | zero => rfl
  | succ fuel =>
    rw [findMatchesGo, execFrom_none_of_big doc before after l hl]

/-- On terminating runs (a non-empty context part) the loop value does not
depend on the fuel once the fuel covers the remaining positions; in
particular `doc.length + 2` is always enough. -/
theorem findMatchesGo_fuel_stable (doc before after : Str)
    (hba : before ≠ [] ∨ after ≠ []) :
    ∀ (fuel fuel' l : Nat), doc.length + 1 ≤ fuel + l → doc.length + 1 ≤ fuel' + l →
    findMatchesGo doc before after fuel l = findMatchesGo doc before after fuel' l := by
  intro fuel
  induction fuel with
  | zero =>
    intro fuel' l hf hf'
    rw [findMatchesGo_nil_of_big doc before after 0 l (by omega),
      findMatchesGo_nil_of_big doc before after fuel' l (by omega)]
  | succ fuel ih =>
    intro fuel' l hf hf'
    cases fuel' with
    | zero =>
      rw [findMatchesGo_nil_of_big doc before after (fuel + 1) l (by omega),
        findMatchesGo_nil_of_big doc before after 0 l (by omega)]
    | succ fuel'' =>
      simp only [findMatchesGo]
      cases hE : execFrom doc before after l with
      | none => rfl
      | some pe =>
        obtain ⟨p, e⟩ := pe
        obtain ⟨hlp, hpd, hma⟩ := execFrom_some_elim doc before after l p e hE
        have hbounds := matchAt_some_bounds doc before after p e hpd hma
        have hb1 : 1 ≤ before.length + after.length := by
          rcases hba with h | h
          · have := List.length_pos.mpr h
            omega
          · have := List.length_pos.mpr h
            omega
        show (⟨p, e, sliceN doc p e⟩ : TextMatch) :: findMatchesGo doc before after fuel e
            = ⟨p, e, sliceN doc p e⟩ :: findMatchesGo doc before after fuel'' e
        congr 1
        exact ih fuel'' e (by omega) (by omega)

/-! ## C1 and C4: divergence-aware statements -/

/-- C1 counterexample: for a locator whose stored context strings are both
empty, the primary recheck misses, the fuzzy strategy holds a validated
candidate above the default threshold (so the claim asserts an immediate
success return), yet the cascade reaches the context scan, whose exec loop
never advances past the empty match: the call never returns. -/
theorem claim_C1_counterexample :
    hangPos.context.before = [] ∧ hangPos.context.after = []
    ∧ hitB hangDocC1 hangPos (7 / 10) .primary_position = false
    ∧ attempt hangDocC1 hangPos .fuzzy_match
        = some (⟨2, 4, "ab".toList, some 1⟩, 23 / 25)
    ∧ (7 / 10 : Rat) ≤ 23 / 25
    ∧ findMatchesDiverges hangDocC1 hangPos.context.before hangPos.context.after = true
    ∧ cascadeHangs hangDocC1 hangPos (7 / 10) = true
    ∧ findAnnotationPositionJS hangDocC1 hangPos (7 / 10) = none := by
  refine ⟨rfl, rfl, by with_unfolding_all rfl, by with_unfolding_all rfl,
    by norm_num, by with_unfolding_all rfl, by with_unfolding_all rfl,
    by with_unfolding_all rfl⟩

/-- C1 (amended).  Whenever the resolution call terminates (equivalently:
the stored context strings are not both empty, or the primary strategy
already returns immediately — see `findMatchesDiverges_iff` and
`cascadeHangs`), the cascade attempts the five strategies in the fixed
order `primary_position, context_match, text_fingerprint,
structural_path, fuzzy_match`, records every attempted method (also
failing ones) in `metadata.strategiesUsed`, and returns success
immediately with the first validated candidate whose recomputed
confidence reaches the threshold, attempting no later strategy. -/
theorem claim_C1_amended (doc : Str) (pos : AnnotationPosition) (mc : Rat)
    (res : PositioningResult)
    (hres : findAnnotationPositionJS doc pos mc = some res) :
    res.metadata.strategiesUsed = strategyOrder.take res.metadata.totalAttempts
  ∧ res.metadata.strategiesUsed.length = res.metadata.totalAttempts
  ∧ (∀ m r c, strategyOrder.find? (hitB doc pos mc) = some m →
      attempt doc pos m = some (r, c) →
      res.success = true
      ∧ res.matchList = [⟨r, c, m⟩]
      ∧ res.metadata.confidence = c
      ∧ res.position = some (updatePosition pos r)
      ∧ res.metadata.totalAttempts
          = (strategyOrder.takeWhile (fun x => ! hitB doc pos mc x)).length + 1)
  ∧ (strategyOrder.find? (hitB doc pos mc) = none →
      res.metadata.strategiesUsed = strategyOrder) := by
  have hr : res = findAnnotationPosition doc pos mc := by
    rw [findAnnotationPositionJS] at hres
    split at hres
    · exact absurd hres (by simp)
    · injection hres with h
      exact h.symm
  subst hr
  exact runCascade_order doc pos mc

/-- Witness for C1: the round-trip example terminates (primary hit), and
the amended conclusions hold on its result. -/
theorem claim_C1_witness :
    findAnnotationPositionJS rtDoc rtLocator (7 / 10)
      = some (findAnnotationPosition rtDoc rtLocator (7 / 10))
    ∧ strategyOrder.find? (hitB rtDoc rtLocator (7 / 10)) = some .primary_position
    ∧ (findAnnotationPosition rtDoc rtLocator (7 / 10)).success = true
    ∧ (findAnnotationPosition rtDoc rtLocator (7 / 10)).metadata.totalAttempts = 1 := by
  have hjs : findAnnotationPositionJS rtDoc rtLocator (7 / 10)
      = some (findAnnotationPosition rtDoc rtLocator (7 / 10)) := by
    with_unfolding_all rfl
  refine ⟨hjs, by with_unfolding_all rfl, ?_⟩
  have h := (claim_C1_amended rtDoc rtLocator (7 / 10)
      (findAnnotationPosition rtDoc rtLocator (7 / 10)) hjs).2.2.1 .primary_position
    ⟨4, 6, "規定".toList, some 1⟩ (49 / 50)
    (by with_unfolding_all rfl) (by with_unfolding_all rfl)
  exact ⟨h.1, by rw [h.2.2.2.2]; with_unfolding_all rfl⟩

set_option maxRecDepth 4000 in
/-- C4 counterexample: for a locator whose stored context strings are both
empty and a document with no validated candidate at all, the claim asserts
a returned failure result with confidence 0, yet the cascade reaches the
context scan and never returns. -/
theorem claim_C4_counterexample :
    hangPos.context.before = [] ∧ hangPos.context.after = []
    ∧ validList hangDocC4 hangPos strategyOrder = []
    ∧ cascadeHangs hangDocC4 hangPos (7 / 10) = true
    ∧ findAnnotationPositionJS hangDocC4 hangPos (7 / 10) = none := by
  refine ⟨rfl, rfl, by with_unfolding_all rfl, by with_unfolding_all rfl,
    by with_unfolding_all rfl⟩

/-- C4 (amended).  Whenever the resolution call terminates (see
`cascadeHangs`): if no strategy produces a validated candidate with
recomputed confidence at least 0.5, it returns (never throws) a failure
result with confidence 0, the collected per-strategy error list, and all
five strategies recorded as attempted; if some validated candidate
reaches 0.5 but none reaches the threshold, it returns success with the
highest-confidence candidate. -/
theorem claim_C4_amended (doc : Str) (pos : AnnotationPosition) (mc : Rat)
    (res : PositioningResult)
    (hres : findAnnotationPositionJS doc pos mc = some res) :
    ((∀ m ∈ validList doc pos strategyOrder, m.confidence < 1 / 2) →
      res.success = false
      ∧ res.metadata.confidence = 0
      ∧ res.errors = []
      ∧ res.metadata.strategiesUsed = strategyOrder
      ∧ 1 ≤ res.metadata.strategiesUsed.length)
  ∧ ((∃ m ∈ validList doc pos strategyOrder, (1 / 2 : Rat) ≤ m.confidence) →
     (∀ m ∈ validList doc pos strategyOrder, m.confidence < mc) →
      res.success = true
      ∧ ∃ best ∈ validList doc pos strategyOrder,
          (∀ m ∈ validList doc pos strategyOrder, m.confidence ≤ best.confidence)
          ∧ res.metadata.confidence = best.confidence
          ∧ res.position = some (updatePosition pos best.range)
          ∧ res.matchList = validList doc pos strategyOrder) := by
  have hr : res = findAnnotationPosition doc pos mc := by
    rw [findAnnotationPositionJS] at hres
    split at hres
    · exact absurd hres (by simp)
    · injection hres with h
      exact h.symm
  subst hr
  exact runCascade_fallback doc pos mc

/-- Witness for C4: the unresolvable example (document from which the
text and its context were removed) terminates, has no validated
candidate, and fails with confidence 0. -/
theorem claim_C4_witness :
    findAnnotationPositionJS lostDoc rtLocator (7 / 10)
      = some (findAnnotationPosition lostDoc rtLocator (7 / 10))
    ∧ (findAnnotationPosition lostDoc rtLocator (7 / 10)).success = false
    ∧ (findAnnotationPosition lostDoc rtLocator (7 / 10)).metadata.confidence = 0 := by
  have hjs : findAnnotationPositionJS lostDoc rtLocator (7 / 10)
      = some (findAnnotationPosition lostDoc rtLocator (7 / 10)) := by
    with_unfolding_all rfl
  have h1 : validList lostDoc rtLocator strategyOrder = [] := by with_unfolding_all rfl
  have hcond : ∀ m ∈ validList lostDoc rtLocator strategyOrder, m.confidence < 1 / 2 := by
    rw [h1]
    simp
  have h := (claim_C4_amended lostDoc rtLocator (7 / 10)
      (findAnnotationPosition lostDoc rtLocator (7 / 10)) hjs).1 hcond
  exact ⟨hjs, h.1, h.2.1⟩
